import Mathlib

/-!
Verification development for the `sui2wasm.py` transpiler of the sui-lang
repository.  The Python source is shallowly embedded: every definition below
is a direct translation of the corresponding Python function (same names,
same evaluation order), with Python exceptions modelled by `Except String`.

Conventions:
* a "line" is the token list produced by `parse_line` for one source line;
* Python `int(...)` is modelled by `pyInt` (whitespace stripping, optional
  sign, decimal digits with single interior underscores);
* Python `float(...)` is modelled by `pyFloat` / `pyIntOfFloat`; the IEEE
  rounding of decimal literals is approximated by exact rational truncation,
  with overflow to infinity at the round-to-nearest boundary `2^1024 - 2^970`;
* Python `dict` (insertion ordered, in-place update) is modelled by the
  association-list operations `dget` / `dset` / `dkeys`;
* loops whose index can skip forward are given an explicit fuel argument
  (`fuel` bounds the number of iterations; the call sites pass
  `length + 1`, which always suffices because the index strictly increases).
-/

/-- Characters Python's `str.strip()` removes (ASCII whitespace). -/
def pyIsSpace (c : Char) : Bool :=
  c = ' ' || c = '\t' || c = '\n' || c = '\r' || c = '\x0b' || c = '\x0c'

/-- ASCII decimal digit test. -/
def isDig (c : Char) : Bool := 48 ≤ c.toNat && c.toNat ≤ 57

/-- `str.strip()` on a character list. -/
def pyStripChars (cs : List Char) : List Char :=
  ((cs.dropWhile pyIsSpace).reverse.dropWhile pyIsSpace).reverse

/-- Digit run as accepted by Python's `int`: non-empty, decimal digits with
single underscores strictly between digits. -/
def digitsOk : List Char → Bool
  | [] => false
  | [c] => isDig c
  | c :: d :: rest =>
    isDig c && (if d = '_' then digitsOk rest else digitsOk (d :: rest))

/-- Numeric value of a digit run (underscores skipped). -/
def digitsVal (cs : List Char) : Nat :=
  cs.foldl (fun a c => if c = '_' then a else a * 10 + (c.toNat - 48)) 0

/-- Parse a digit run, `none` when malformed. -/
def digitsParse (cs : List Char) : Option Nat :=
  if digitsOk cs then some (digitsVal cs) else none

/-- Python `int(str)` on a character list. -/
def pyIntChars (cs : List Char) : Option Int :=
  match pyStripChars cs with
  | [] => none
  | c :: rest =>
    if c = '+' then (digitsParse rest).map (fun n => (n : Int))
    else if c = '-' then (digitsParse rest).map (fun n => -(n : Int))
    else (digitsParse (c :: rest)).map (fun n => (n : Int))

/-- Python `int(str)`. -/
def pyInt (s : String) : Option Int := pyIntChars s.data

/-- Python `int(str)` as an `Except`: a failed conversion raises `ValueError`. -/
def pyIntE (s : String) : Except String Int :=
  match pyInt s with
  | some i => .ok i
  | none => .error "ValueError"

/-- Little-endian decimal digits of `n`; the fuel argument bounds the
recursion (`n` itself suffices). -/
def toDigitsRev : Nat → Nat → List Nat
  | 0, _ => []
  | fuel + 1, n => if n = 0 then [] else n % 10 :: toDigitsRev fuel (n / 10)

/-- Decimal character of a digit. -/
def digitChar10 (d : Nat) : Char := Char.ofNat (48 + d)

/-- Decimal representation of a natural number (Python `str`/f-string). -/
def natRepr (n : Nat) : String :=
  if n = 0 then "0" else String.mk (((toDigitsRev n n).reverse).map digitChar10)

/-- Decimal representation of an integer (Python `str`/f-string). -/
def intRepr (i : Int) : String :=
  if i < 0 then "-" ++ natRepr i.natAbs else natRepr i.natAbs

/-- Result of a successful Python `float(str)`: an exact decimal value
`m * 10 ^ e`, or an infinity, or a NaN. -/
inductive PyFloatVal where
  | num (m : Int) (e : Int)
  | inf (neg : Bool)
  | nan
deriving DecidableEq

/-- Digit run for `float` (same underscore rule as `int`), possibly empty. -/
def floatDigits : List Char → Option (List Char)
  | [] => some []
  | cs => if digitsOk cs then some cs else none

/-- Split the longest leading run of digit-or-underscore characters. -/
def spanDigitsU (cs : List Char) : List Char × List Char :=
  (cs.takeWhile (fun c => isDig c || c = '_'), cs.dropWhile (fun c => isDig c || c = '_'))

/-- Parse the exponent part after `e`/`E`. -/
def parseExp (cs : List Char) : Option Int :=
  match cs with
  | '+' :: rest => if digitsOk rest then some ((digitsVal rest : Int)) else none
  | '-' :: rest => if digitsOk rest then some (-(digitsVal rest : Int)) else none
  | rest => if digitsOk rest then some ((digitsVal rest : Int)) else none

/-- Parse an unsigned float body `digits [. digits] [exp]` into `(m, e)` with
value `m * 10 ^ e`. -/
def parseFloatBody (cs : List Char) : Option (Nat × Int) :=
  let (ip, rest1) := spanDigitsU cs
  match rest1 with
  | '.' :: rest2 =>
    let (fp, rest3) := spanDigitsU rest2
    if ip = [] && fp = [] then none
    else if ip ≠ [] && ¬ digitsOk ip then none
    else if fp ≠ [] && ¬ digitsOk fp then none
    else
      let m := digitsVal ip * 10 ^ fp.length + (if fp = [] then 0 else digitsVal fp)
      match rest3 with
      | [] => some (m, -(fp.length : Int))
      | 'e' :: rest4 => (parseExp rest4).map (fun ex => (m, ex - fp.length))
      | 'E' :: rest4 => (parseExp rest4).map (fun ex => (m, ex - fp.length))
      | _ => none
  | 'e' :: rest2 =>
    if ip = [] then none
    else if ¬ digitsOk ip then none
    else (parseExp rest2).map (fun ex => (digitsVal ip, ex))
  | 'E' :: rest2 =>
    if ip = [] then none
    else if ¬ digitsOk ip then none
    else (parseExp rest2).map (fun ex => (digitsVal ip, ex))
  | [] =>
    if ip = [] then none
    else if ¬ digitsOk ip then none
    else some (digitsVal ip, 0)
  | _ => none

/-- Lower-case a character (ASCII). -/
def lowerCh (c : Char) : Char :=
  if 'A' ≤ c && c ≤ 'Z' then Char.ofNat (c.toNat + 32) else c

/-- Python `float(str)`. -/
def pyFloat (s : String) : Option PyFloatVal :=
  let body := pyStripChars s.data
  let (neg, body) :=
    match body with
    | '+' :: rest => (false, rest)
    | '-' :: rest => (true, rest)
    | rest => (false, rest)
  let low := body.map lowerCh
  if low = "inf".data || low = "infinity".data then some (.inf neg)
  else if low = "nan".data then some .nan
  else
    (parseFloatBody body).map (fun p =>
      .num (if neg then -(p.1 : Int) else (p.1 : Int)) p.2)

/-- Magnitude at or above which a decimal value rounds to IEEE infinity. -/
def floatInfBound : Nat := 2 ^ 1024 - 2 ^ 970

/-- Whether `m * 10 ^ e` (in magnitude) rounds to infinity as a double. -/
def floatOverflows (m : Int) (e : Int) : Bool :=
  if 0 ≤ e then decide (floatInfBound ≤ m.natAbs * 10 ^ e.toNat)
  else decide (floatInfBound * 10 ^ (-e).toNat ≤ m.natAbs)

/-- Python `int(float(...))` applied to a parsed float: truncation toward
zero, `OverflowError` on infinity, `ValueError` on NaN. -/
def pyIntOfFloat : PyFloatVal → Except String Int
  | .inf _ => .error "OverflowError"
  | .nan => .error "ValueError"
  | .num m e =>
    if floatOverflows m e then .error "OverflowError"
    else if 0 ≤ e then .ok (m * 10 ^ e.toNat)
    else
      let q := m.natAbs / 10 ^ (-e).toNat
      .ok (if m < 0 then -(q : Int) else (q : Int))

/-- Python `s.startswith(c)` for a single character (char-list based so that
closed instances reduce in the kernel). -/
def strHead (s : String) (c : Char) : Bool :=
  match s.data with
  | [] => false
  | d :: _ => d = c

/-- Python `s[1:]`. -/
def strTail (s : String) : String := String.mk (s.data.drop 1)

/-- Python `'.' in s`. -/
def strHasDot (s : String) : Bool := s.data.contains '.'

/-- `str.join` over a separator (char-list based `String.intercalate`). -/
def joinSep (sep : String) : List String → String
  | [] => ""
  | [x] => x
  | x :: y :: rest => x ++ sep ++ joinSep sep (y :: rest)

/-- Split a character list at newline characters (`str.split('\n')`). -/
def splitNlChars : List Char → List (List Char)
  | [] => [[]]
  | c :: rest =>
    if c = '\n' then [] :: splitNlChars rest
    else
      match splitNlChars rest with
      | [] => [[c]]
      | h :: t => (c :: h) :: t

/-! ## Tokenizer (`Sui2WatTranspiler.parse_line`) -/

/-- `line[:line.index(';')]` when `';' in line`, else the line itself:
both equal the longest `';'`-free prefix. -/
def stripComment (cs : List Char) : List Char := cs.takeWhile (fun c => c ≠ ';')

/-- Scan the remainder of a double-quoted segment (after the opening quote):
returns the consumed characters (closing quote included when present) and the
unconsumed rest.  A backslash always consumes the following character; an
unterminated segment consumes the rest of the line, as in the source. -/
def scanQuoted : List Char → List Char × List Char
  | [] => ([], [])
  | c :: rest =>
    if c = '"' then ([c], rest)
    else if c = '\\' then
      match rest with
      | [] => ([c], [])
      | d :: rest2 =>
        let p := scanQuoted rest2
        (c :: d :: p.1, p.2)
    else
      let p := scanQuoted rest
      (c :: p.1, p.2)

/-- The tokenizing loop of `parse_line`; `fuel` bounds the iterations. -/
def tokenizeF : Nat → List Char → List String
  | _, [] => []
  | 0, _ :: _ => []
  | fuel + 1, c :: rest =>
    if c = ' ' || c = '\t' then tokenizeF fuel rest
    else if c = '"' then
      let p := scanQuoted rest
      String.mk (c :: p.1) :: tokenizeF fuel p.2
    else
      String.mk (c :: rest.takeWhile (fun d => ¬ (d = ' ' || d = '\t'))) ::
        tokenizeF fuel (rest.dropWhile (fun d => ¬ (d = ' ' || d = '\t')))

/-- Tokenize a comment-stripped, stripped line. -/
def tokenize (cs : List Char) : List String := tokenizeF (cs.length + 1) cs

/-- `Sui2WatTranspiler.parse_line`. -/
def parse_line (line : String) : Option (List String) :=
  let cs := pyStripChars (stripComment line.data)
  if cs = [] then none
  else
    let tokens := tokenize cs
    if tokens = [] then none else some tokens

/-- The decoded token lines of a whole source text
(`code.strip().split('\n')` fed through `parse_line`). -/
def parsedLines (code : String) : List (List String) :=
  ((splitNlChars (pyStripChars code.data)).map String.mk).filterMap parse_line

/-! ## Python dict / set models -/

/-- Python `dict` lookup on an insertion-ordered association list. -/
def dget {α : Type} : List (Int × α) → Int → Option α
  | [], _ => none
  | (k, v) :: d, k2 => if k = k2 then some v else dget d k2

/-- Python `dict` assignment: update in place, or append a new key. -/
def dset {α : Type} : List (Int × α) → Int → α → List (Int × α)
  | [], k, v => [(k, v)]
  | (k1, v1) :: d, k, v =>
    if k1 = k then (k1, v) :: d else (k1, v1) :: dset d k v

/-- Python `dict.keys()` (insertion order). -/
def dkeys {α : Type} (d : List (Int × α)) : List Int := d.map Prod.fst

/-- Python `set.add` on a list kept free of duplicates. -/
def insertUniq (xs : List Int) (v : Int) : List Int :=
  if v ∈ xs then xs else xs ++ [v]

/-- Python `sorted` on integers. -/
def sortInts (xs : List Int) : List Int := xs.insertionSort (· ≤ ·)

/-! ## Usage collection (`Sui2WatTranspiler.collect_info`) -/

/-- The mutable usage facts of the transpiler object. -/
structure Info where
  useMemory : Bool
  usedGlobals : List Int
deriving DecidableEq

/-- One line of `collect_info`. -/
def collectInfoLine (info : Info) (tokens : List String) : Info :=
  match tokens with
  | [] => info
  | op :: rest =>
    { useMemory := info.useMemory || (op = "[" || op = "]" || op = "\x7b"),
      usedGlobals := rest.foldl (fun gs t =>
        if strHead t 'g' then
          match pyInt (strTail t) with
          | some i => insertUniq gs i
          | none => gs
        else gs) info.usedGlobals }

/-- `Sui2WatTranspiler.collect_info`. -/
def collect_info (info : Info) (lines : List (List String)) : Info :=
  lines.foldl collectInfoLine info

/-! ## Value resolution (`resolve_value`, `set_var`) -/

/-- `Sui2WatTranspiler.resolve_value` (`sui2wasm.py`). -/
def resolve_value (val : String) : Except String String :=
  if strHead val 'v' then
    match pyInt (strTail val) with
    | some idx => .ok ("(local.get $v" ++ intRepr idx ++ ")")
    | none => .error "ValueError"
  else if strHead val 'g' then
    match pyInt (strTail val) with
    | some idx => .ok ("(global.get $g" ++ intRepr idx ++ ")")
    | none => .error "ValueError"
  else if strHead val 'a' then
    match pyInt (strTail val) with
    | some idx => .ok ("(local.get $a" ++ intRepr idx ++ ")")
    | none => .error "ValueError"
  else if strHead val '"' then .ok "(i32.const 0)"
  else if strHasDot val then
    match pyFloat val with
    | some fv => (pyIntOfFloat fv).map (fun i => "(i32.const " ++ intRepr i ++ ")")
    | none => .error "ValueError"
  else
    match pyInt val with
    | some i => .ok ("(i32.const " ++ intRepr i ++ ")")
    | none => .ok "(i32.const 0)"

/-- `Sui2WatTranspiler.set_var`. -/
def set_var (var : String) : Except String String :=
  if strHead var 'v' then
    match pyInt (strTail var) with
    | some idx => .ok ("(local.set $v" ++ intRepr idx ++ ")")
    | none => .error "ValueError"
  else if strHead var 'g' then
    match pyInt (strTail var) with
    | some idx => .ok ("(global.set $g" ++ intRepr idx ++ ")")
    | none => .error "ValueError"
  else .ok ""

/-- `tokens[i]`: raises `IndexError` past the end. -/
def tget (ts : List String) (i : Nat) : Except String String :=
  match ts.get? i with
  | some t => .ok t
  | none => .error "IndexError"

/-! ## Instruction encoder (`Sui2WatTranspiler.transpile_instruction`) -/

/-- `Sui2WatTranspiler.transpile_instruction`.  Token accesses and value
resolutions happen in the source's order, so the first Python exception is
the one reported.  The late `self.use_memory = True` assignments of the
source are omitted: they run only after the module header (the sole reader
of the flag) has already been emitted, and `collect_info` has already seen
every line, so they can never change the output. -/
def transpile_instruction (tokens : List String) : Except String (List String) :=
  match tokens with
  | [] => .ok []
  | op :: _ =>
    if op = "=" then do
      let t2 ← tget tokens 2
      let vc ← resolve_value t2
      let t1 ← tget tokens 1
      let sv ← set_var t1
      .ok [vc, sv]
    else if op = "+" || op = "-" || op = "*" || op = "/" || op = "%" then do
      let t2 ← tget tokens 2
      let a ← resolve_value t2
      let t3 ← tget tokens 3
      let b ← resolve_value t3
      let opw :=
        if op = "+" then "(i32.add)"
        else if op = "-" then "(i32.sub)"
        else if op = "*" then "(i32.mul)"
        else if op = "/" then "(i32.div_s)"
        else "(i32.rem_s)"
      let t1 ← tget tokens 1
      let sv ← set_var t1
      .ok [a, b, opw, sv]
    else if op = "<" then do
      let t2 ← tget tokens 2
      let a ← resolve_value t2
      let t3 ← tget tokens 3
      let b ← resolve_value t3
      let t1 ← tget tokens 1
      let sv ← set_var t1
      .ok [a, b, "(i32.lt_s)", sv]
    else if op = ">" then do
      let t2 ← tget tokens 2
      let a ← resolve_value t2
      let t3 ← tget tokens 3
      let b ← resolve_value t3
      let t1 ← tget tokens 1
      let sv ← set_var t1
      .ok [a, b, "(i32.gt_s)", sv]
    else if op = "~" then do
      let t2 ← tget tokens 2
      let a ← resolve_value t2
      let t3 ← tget tokens 3
      let b ← resolve_value t3
      let t1 ← tget tokens 1
      let sv ← set_var t1
      .ok [a, b, "(i32.eq)", sv]
    else if op = "!" then do
      let t2 ← tget tokens 2
      let a ← resolve_value t2
      let t1 ← tget tokens 1
      let sv ← set_var t1
      .ok [a, "(i32.eqz)", sv]
    else if op = "&" then do
      let t2 ← tget tokens 2
      let a ← resolve_value t2
      let t3 ← tget tokens 3
      let b ← resolve_value t3
      let t1 ← tget tokens 1
      let sv ← set_var t1
      .ok [a, b, "(i32.and)", sv]
    else if op = "|" then do
      let t2 ← tget tokens 2
      let a ← resolve_value t2
      let t3 ← tget tokens 3
      let b ← resolve_value t3
      let t1 ← tget tokens 1
      let sv ← set_var t1
      .ok [a, b, "(i32.or)", sv]
    else if op = "." then do
      let t1 ← tget tokens 1
      let a ← resolve_value t1
      .ok [a, "(call $print_i32)"]
    else if op = "[" then do
      let t2 ← tget tokens 2
      let size ← resolve_value t2
      let t1 ← tget tokens 1
      let sv ← set_var t1
      .ok ["(global.get $heap_ptr)", sv, "(global.get $heap_ptr)", size,
           "(i32.const 4)", "(i32.mul)", "(i32.add)", "(global.set $heap_ptr)"]
    else if op = "]" then do
      let t2 ← tget tokens 2
      let a ← resolve_value t2
      let t3 ← tget tokens 3
      let b ← resolve_value t3
      let t1 ← tget tokens 1
      let sv ← set_var t1
      .ok [a, b, "(i32.const 4)", "(i32.mul)", "(i32.add)", "(i32.load)", sv]
    else if op = "\x7b" then
      if 4 ≤ tokens.length then do
        let t1 ← tget tokens 1
        let a ← resolve_value t1
        let t2 ← tget tokens 2
        let b ← resolve_value t2
        let t3 ← tget tokens 3
        let c ← resolve_value t3
        .ok [a, b, "(i32.const 4)", "(i32.mul)", "(i32.add)", c, "(i32.store)"]
      else .ok []
    else .ok []

/-! ## Control-flow reconstruction (`Sui2WatTranspiler.transpile_block`) -/

/-- First token of a decoded line (`parse_line` never yields `[]`, so the
default is never consulted on reachable inputs). -/
def head0 (l : List String) : String := l.headD ""

/-- The label-collection loop at the top of `transpile_block`:
`labels.add(int(tokens[1]))` for every line whose opcode is `:`. -/
def labelsLoop : List (List String) → List Int → Except String (List Int)
  | [], acc => .ok acc
  | l :: ls, acc =>
    if l ≠ [] && head0 l = ":" then do
      let t ← tget l 1
      let v ← pyIntE t
      labelsLoop ls (insertUniq acc v)
    else labelsLoop ls acc

/-- The collected label set of a body. -/
def labelsOf (lines : List (List String)) : Except String (List Int) :=
  labelsLoop lines []

/-- `state_map`: sorted labels numbered 1, 2, 3, … -/
def stateMapOf (labels : List Int) : List (Int × Int) :=
  (sortInts labels).enum.map (fun p => (p.2, (p.1 : Int) + 1))

/-- The state-partitioning loop of `transpile_block`: distribute the lines
over `states` (initially `{0: []}`), tracking `current_state`. -/
def buildStates (sm : List (Int × Int)) :
    List (List String) → List (Int × List (List String)) → Int →
    Except String (List (Int × List (List String)))
  | [], states, _ => .ok states
  | l :: ls, states, cur =>
    if l = [] then buildStates sm ls states cur
    else if head0 l = ":" then do
      let t ← tget l 1
      let v ← pyIntE t
      match dget sm v with
      | some cur2 =>
        let states2 := if (dget states cur2).isSome then states else dset states cur2 []
        buildStates sm ls states2 cur2
      | none => .error "KeyError"
    else if head0 l = "\x7d" then buildStates sm ls states cur
    else
      let states2 :=
        match dget states cur with
        | some xs => dset states cur (xs ++ [l])
        | none => dset states cur [l]
      buildStates sm ls states2 cur

/-- Compile one instruction inside a dispatch-loop state; returns the emitted
lines and whether the instruction sets `has_jump` (only `@` and `^` do). -/
def emitStateInstr (sm : List (Int × Int)) (tokens : List String) :
    Except String (List String × Bool) :=
  if head0 tokens = "?" then do
    let t1 ← tget tokens 1
    let cond ← resolve_value t1
    let t2 ← tget tokens 2
    let target ← pyIntE t2
    let ts := (dget sm target).getD 0
    .ok (["        " ++ cond,
          "        (if",
          "          (then",
          "            (local.set $_state (i32.const " ++ intRepr ts ++ "))",
          "            (br $loop)",
          "          )",
          "        )"], false)
  else if head0 tokens = "@" then do
    let t1 ← tget tokens 1
    let target ← pyIntE t1
    let ts := (dget sm target).getD 0
    .ok (["        (local.set $_state (i32.const " ++ intRepr ts ++ "))",
          "        (br $loop)"], true)
  else if head0 tokens = "^" then do
    let t1 ← tget tokens 1
    let v ← resolve_value t1
    .ok (["        " ++ v, "        (return)"], true)
  else if head0 tokens = "$" then do
    let rv ← tget tokens 1
    let fid ← tget tokens 2
    let args := tokens.drop 3
    let acodes ← args.mapM resolve_value
    let sv ← set_var rv
    .ok ((acodes.map (fun a => "        " ++ a)) ++
         ["        (call $f" ++ fid ++ ")", "        " ++ sv], false)
  else
    (transpile_instruction tokens).map
      (fun insts => (insts.map (fun i => "        " ++ i), false))

/-- The per-state instruction loop: emitted lines plus the `has_jump` flag,
threaded through an explicit accumulator. -/
def emitStateLoop (sm : List (Int × Int)) :
    List (List String) → List String × Bool → Except String (List String × Bool)
  | [], acc => .ok acc
  | l :: ls, acc => do
    let (cs, j) ← emitStateInstr sm l
    emitStateLoop sm ls (acc.1 ++ cs, acc.2 || j)

/-- The per-state instruction loop from the initial state. -/
def emitStateBody (sm : List (Int × Int)) (stateLines : List (List String)) :
    Except String (List String × Bool) :=
  emitStateLoop sm stateLines ([], false)

/-- The synthesized fallthrough transition appended when a state's body set
no `has_jump`: advance to the next state if it exists, else leave the block. -/
def fallLines (states : List (Int × List (List String))) (sid : Int) : List String :=
  if (dget states (sid + 1)).isSome then
    ["        (local.set $_state (i32.const " ++ intRepr (sid + 1) ++ "))",
     "        (br $loop)"]
  else ["        (br $exit)"]

/-- The emission of one state inside the dispatch loop. -/
def stateSegment (sm : List (Int × Int)) (states : List (Int × List (List String)))
    (sid : Int) (stateLines : List (List String)) : Except String (List String) := do
  let (body, hasJump) ← emitStateBody sm stateLines
  .ok (["    ;; State " ++ intRepr sid,
        "    (if (i32.eq (local.get $_state) (i32.const " ++ intRepr sid ++ "))",
        "      (then"] ++
       body ++
       (if hasJump then [] else fallLines states sid) ++
       ["      )", "    )"])

/-- One line of the label-free (linear) path of `transpile_block`. -/
def noLabelLine (tokens : List String) : Except String (List String) :=
  if tokens = [] || head0 tokens = "\x7d" then .ok []
  else if head0 tokens = "^" then do
    let t1 ← tget tokens 1
    let v ← resolve_value t1
    .ok [v, "(return)"]
  else if head0 tokens = "$" then do
    let rv ← tget tokens 1
    let fid ← tget tokens 2
    let args := tokens.drop 3
    let acodes ← args.mapM resolve_value
    let sv ← set_var rv
    .ok (acodes ++ ["(call $f" ++ fid ++ ")", sv])
  else transpile_instruction tokens

/-- The linear emission loop of the label-free path. -/
def linearLoop : List (List String) → List String → Except String (List String)
  | [], acc => .ok acc
  | l :: ls, acc => do
    let cs ← noLabelLine l
    linearLoop ls (acc ++ cs)

/-- `Sui2WatTranspiler.transpile_block`.  (The Python signature also takes
`local_vars` and `is_function`, which the body never reads.) -/
def transpile_block (lines : List (List String)) : Except String (List String) := do
  let labels ← labelsOf lines
  if labels ≠ [] then
    let sm := stateMapOf labels
    let states ← buildStates sm lines [(0, [])] 0
    let keys := sortInts (dkeys states)
    let segs ← keys.mapM (fun k => stateSegment sm states k ((dget states k).getD []))
    .ok (["(local $_state i32)",
          "(local.set $_state (i32.const 0))",
          "(block $exit",
          "  (loop $loop"] ++
         segs.flatten ++
         ["    (br $exit)", "  )", ")"])
  else linearLoop lines []

/-! ## Function transpilation (`Sui2WatTranspiler.transpile_function`) -/

/-- Local-variable collection over a body: every token starting with `v`
whose remainder parses as an int (failures silently skipped). -/
def collectLocalVars (body : List (List String)) : List Int :=
  body.foldl (fun vs tokens =>
    tokens.foldl (fun vs2 t =>
      if strHead t 'v' then
        match pyInt (strTail t) with
        | some i => insertUniq vs2 i
        | none => vs2
      else vs2) vs) []

/-- `" ".join(f"(param $a{i} i32)" for i in range(argc))`. -/
def paramsStr (argc : Int) : String :=
  joinSep " "
    ((List.range argc.toNat).map (fun i => "(param $a" ++ natRepr i ++ " i32)"))

/-- `Sui2WatTranspiler.transpile_function`. -/
def transpile_function (funcId : Int) (argc : Int) (body : List (List String)) :
    Except String (List String) := do
  let localVars := collectLocalVars body
  let header := "(func $f" ++ intRepr funcId ++ " (export \"f" ++ intRepr funcId ++
    "\") " ++ paramsStr argc ++ " (result i32)"
  let bodyCode ← transpile_block body
  .ok (header ::
       (sortInts localVars).map (fun v => "  (local $v" ++ intRepr v ++ " i32)") ++
       bodyCode.map (fun l => "  " ++ l) ++
       ["  (i32.const 0)", ")"])

/-! ## Program splitting (the two index loops of `Sui2WatTranspiler.transpile`) -/

/-- The inner `while` of the function-collection loop: consume lines into the
current function body until the matching `}` (depth tracking); returns the
body and the lines after the closing `}`. -/
def splitFuncBody : List (List String) → Nat → List (List String) × List (List String)
  | [], _ => ([], [])
  | l :: ls, depth =>
    if head0 l = "#" then
      let p := splitFuncBody ls (depth + 1)
      (l :: p.1, p.2)
    else if head0 l = "\x7d" then
      if depth = 1 then ([], ls)
      else
        let p := splitFuncBody ls (depth - 1)
        (l :: p.1, p.2)
    else
      let p := splitFuncBody ls depth
      (l :: p.1, p.2)

/-- The function-collection loop of `transpile` (`self.functions[func_id] =
{...}; self.collect_info(body)`); `fuel` bounds the outer iterations. -/
def collectFnsF : Nat → List (List String) →
    List (Int × (Int × List (List String))) → Info →
    Except String (List (Int × (Int × List (List String))) × Info)
  | _, [], fns, info => .ok (fns, info)
  | 0, _ :: _, _, _ => .error "fuelExhausted"
  | fuel + 1, l :: ls, fns, info =>
    if head0 l = "#" then do
      let t1 ← tget l 1
      let funcId ← pyIntE t1
      let t2 ← tget l 2
      let argc ← pyIntE t2
      let p := splitFuncBody ls 1
      collectFnsF fuel p.2 (dset fns funcId (argc, p.1)) (collect_info info p.1)
    else collectFnsF fuel ls fns info

/-- The function-collection loop with its canonical fuel. -/
def collectFns (lines : List (List String)) (info : Info) :
    Except String (List (Int × (Int × List (List String))) × Info) :=
  collectFnsF (lines.length + 1) lines [] info

/-- The inner `while` of the main-body loop: skip a function definition
(the closing `}` included). -/
def skipFunc : List (List String) → Nat → List (List String)
  | [], _ => []
  | l :: ls, depth =>
    let d2 :=
      if head0 l = "#" then depth + 1
      else if head0 l = "\x7d" then depth - 1
      else depth
    if d2 = 0 then ls else skipFunc ls d2

/-- Add the local-variable indices of one line's tokens to the accumulator
(the `main_locals.add(int(token[1:]))` loop). -/
def addLineLocals (vs : List Int) (l : List String) : List Int :=
  l.foldl (fun vs2 t =>
    if strHead t 'v' then
      match pyInt (strTail t) with
      | some i => insertUniq vs2 i
      | none => vs2
    else vs2) vs

/-- The main-body loop of `transpile`: the entry-body lines and the local
variables referenced in them; `fuel` bounds the outer iterations. -/
def mainSplitF : Nat → List (List String) → List Int →
    List (List String) × List Int
  | _, [], vs => ([], vs)
  | 0, _ :: _, vs => ([], vs)
  | fuel + 1, l :: ls, vs =>
    if head0 l = "#" then mainSplitF fuel (skipFunc ls 1) vs
    else
      let p := mainSplitF fuel ls (addLineLocals vs l)
      (l :: p.1, p.2)

/-- The main-body loop with its canonical fuel. -/
def mainSplit (lines : List (List String)) : List (List String) × List Int :=
  mainSplitF (lines.length + 1) lines []

/-! ## Module assembly (`Sui2WatTranspiler.transpile`) -/

/-- `sorted(self.functions.items())`. -/
def sortFns (fns : List (Int × (Int × List (List String)))) :
    List (Int × (Int × List (List String))) :=
  fns.insertionSort (fun a b => a.1 ≤ b.1)

/-- The fixed module prologue (`emit` at indent 1 prefixes two spaces; a
blank `emit("")` at indent 1 yields `"  "`). -/
def moduleHeader : List String :=
  ["(module",
   "  ;; External function imports",
   "  (import \"env\" \"print_i32\" (func $print_i32 (param i32)))",
   "  "]

/-- The optional memory / heap-pointer segment. -/
def memorySeg (useMemory : Bool) : List String :=
  if useMemory then
    ["  ;; Linear memory for arrays",
     "  (memory 1)",
     "  (global $heap_ptr (mut i32) (i32.const 0))",
     "  "]
  else []

/-- The optional global-variable segment. -/
def globalsSeg (gs : List Int) : List String :=
  if gs = [] then []
  else
    "  ;; Global variables" ::
    (sortInts gs).map (fun g =>
      "  (global $g" ++ intRepr g ++ " (export \"g" ++ intRepr g ++
      "\") (mut i32) (i32.const 0))") ++
    ["  "]

/-- The optional function-definitions segment: each function's lines emitted
at indent 1, followed by a blank `emit("")`. -/
def funcsSeg (segs : List (List String)) : List String :=
  if segs = [] then []
  else
    "  ;; Function definitions" ::
    (segs.map (fun seg => seg.map (fun l => "  " ++ l) ++ ["  "])).flatten

/-- The main-function segment: locals and body emitted at indent 2. -/
def mainSeg (locals : List Int) (body : List String) : List String :=
  ["  ;; Main function",
   "  (func $main (export \"main\") (result i32)"] ++
  (sortInts locals).map (fun v => "    (local $v" ++ intRepr v ++ " i32)") ++
  body.map (fun l => "    " ++ l) ++
  ["    (i32.const 0)", "  )", ")"]

/-- `Sui2WatTranspiler.transpile`, producing the emitted lines
(`self.output`); the Python method returns `'\n'.join(...)` of these. -/
def transpile (code : String) : Except String (List String) := do
  let lines := parsedLines code
  let info0 := collect_info ⟨false, []⟩ lines
  let (fns, info) ← collectFns lines info0
  let fnsSorted := sortFns fns
  let funcSegs ← fnsSorted.mapM (fun p => transpile_function p.1 p.2.1 p.2.2)
  let p := mainSplit lines
  let mainBody ← transpile_block p.1
  .ok (moduleHeader ++
       memorySeg info.useMemory ++
       globalsSeg info.usedGlobals ++
       funcsSeg funcSegs ++
       mainSeg p.2 mainBody)

/-- The emitted module text. -/
def transpileText (code : String) : Except String String :=
  (transpile code).map (fun ls => joinSep "\n" ls)

/-! ## A small WAT-fragment semantics

Modelled from the WebAssembly specification for the instruction shapes the
transpiler emits for array allocation: `i32.const`, `i32.add`, `i32.mul`
(wrap-around two's-complement arithmetic), local get/set, and the
`$heap_ptr` global.  Used to state the heap-bump arithmetic claim. -/

/-- Drop a concrete prefix from a character list. -/
def dropPre : List Char → List Char → Option (List Char)
  | [], cs => some cs
  | _ :: _, [] => none
  | p :: ps, c :: cs => if c = p then dropPre ps cs else none

/-- Drop a trailing closing parenthesis. -/
def dropParen (cs : List Char) : Option (List Char) :=
  match cs.reverse with
  | ')' :: rest => some rest.reverse
  | _ => none

/-- Extract `arg` out of `pre ++ arg ++ ")"`. -/
def decodeArg (pre : String) (s : String) : Option String :=
  (dropPre pre.data s.data).bind (fun m => (dropParen m).map String.mk)

/-- The decoded WAT instructions of the evaluated fragment. -/
inductive WInstr where
  | constI (n : Int)
  | globalGetHeap
  | globalSetHeap
  | localSet (x : String)
  | localGet (x : String)
  | addI
  | mulI
deriving DecidableEq

/-- Decode one emitted line into a `WInstr`. -/
def decodeW (s : String) : Option WInstr :=
  if s = "(global.get $heap_ptr)" then some .globalGetHeap
  else if s = "(global.set $heap_ptr)" then some .globalSetHeap
  else if s = "(i32.add)" then some .addI
  else if s = "(i32.mul)" then some .mulI
  else
    match decodeArg "(i32.const " s with
    | some a => (pyIntChars a.data).map .constI
    | none =>
      match decodeArg "(local.set $" s with
      | some x => some (.localSet x)
      | none => (decodeArg "(local.get $" s).map .localGet

/-- Two's-complement wrap-around to the signed 32-bit range. -/
def wrap32 (x : Int) : Int := (x + 2 ^ 31) % 2 ^ 32 - 2 ^ 31

/-- Association-list lookup keyed by local names. -/
def sget : List (String × Int) → String → Option Int
  | [], _ => none
  | (k, v) :: d, k2 => if k = k2 then some v else sget d k2

/-- Association-list update keyed by local names. -/
def sset : List (String × Int) → String → Int → List (String × Int)
  | [], k, v => [(k, v)]
  | (k1, v1) :: d, k, v =>
    if k1 = k then (k1, v) :: d else (k1, v1) :: sset d k v

/-- Machine state of the evaluated fragment. -/
structure WState where
  stack : List Int
  heap : Int
  locals : List (String × Int)
deriving DecidableEq

/-- One WAT instruction step. -/
def wstep (st : WState) : WInstr → Option WState
  | .constI n => some { st with stack := wrap32 n :: st.stack }
  | .globalGetHeap => some { st with stack := st.heap :: st.stack }
  | .globalSetHeap =>
    match st.stack with
    | v :: r => some { st with stack := r, heap := v }
    | [] => none
  | .addI =>
    match st.stack with
    | b :: a :: r => some { st with stack := wrap32 (a + b) :: r }
    | _ => none
  | .mulI =>
    match st.stack with
    | b :: a :: r => some { st with stack := wrap32 (a * b) :: r }
    | _ => none
  | .localSet x =>
    match st.stack with
    | v :: r => some { stack := r, heap := st.heap, locals := sset st.locals x v }
    | [] => none
  | .localGet x =>
    some { st with stack := ((sget st.locals x).getD 0) :: st.stack }

/-- Evaluate a straight-line list of emitted WAT lines. -/
def watEval (ls : List String) (st : WState) : Option WState :=
  ls.foldlM (fun s l => (decodeW l).bind (wstep s)) st

/-! ## Spec-side definitions used in the theorem statements -/

/-- The instructions preceding the first label marker of a body, with the
structural lines (empties and scope-closers `}`) dropped — the spec's
"entry region" (state 0). -/
def entryRegion (lines : List (List String)) : List (List String) :=
  (lines.takeWhile (fun l => ¬ head0 l = ":")).filter
    (fun l => ¬ l = [] ∧ ¬ head0 l = "\x7d")

/-- Whether some line's opcode is one of the three array operators. -/
def arrayOpPresent (lines : List (List String)) : Bool :=
  lines.any (fun l => head0 l = "[" || head0 l = "]" || head0 l = "\x7b")

/-- Recover the state id announced by a `;; State n` comment line. -/
def extractStateId (s : String) : Option Int :=
  (dropPre "    ;; State ".data s.data).bind pyIntChars

/-- The sequence of state ids announced in an emitted block, in order. -/
def emittedStateIds (out : List String) : List Int :=
  out.filterMap extractStateId

/-- Whether a state's instruction list contains an unconditional jump or a
return (exactly the instructions that set the source's `has_jump`). -/
def hasJumpIn (stateLines : List (List String)) : Bool :=
  stateLines.any (fun l => head0 l = "@" || head0 l = "^")

/-! # Theorems

First, the decimal round trip `pyInt (natRepr n) = some n` and its
supporting lemmas. -/

theorem toDigitsRev_eq (fuel n : Nat) (h : n ≤ fuel) :
    toDigitsRev fuel n = Nat.digits 10 n := by
  induction fuel generalizing n with
  | zero =>
    have hn : n = 0 := Nat.le_zero.mp h
    subst hn
    simp [toDigitsRev]
  | succ fuel ih =>
    by_cases h0 : n = 0
    · subst h0; simp [toDigitsRev]
    · rw [toDigitsRev, if_neg h0,
        Nat.digits_def' (by norm_num : (1:ℕ) < 10) (Nat.pos_of_ne_zero h0)]
      congr 1
      refine ih _ ?_
      have := Nat.div_lt_self (Nat.pos_of_ne_zero h0) (by norm_num : 1 < 10)
      omega

theorem digitChar10_isDig (d : Nat) (h : d < 10) : isDig (digitChar10 d) = true := by
  interval_cases d <;> decide

theorem digitChar10_toNat (d : Nat) (h : d < 10) : (digitChar10 d).toNat = 48 + d := by
  interval_cases d <;> decide

theorem isDig_toNat {c : Char} (h : isDig c = true) :
    48 ≤ c.toNat ∧ c.toNat ≤ 57 := by
  simpa [isDig, Bool.and_eq_true] using h

theorem isDig_ne {c x : Char} (h : isDig c = true) (hx : x.toNat < 48 ∨ 57 < x.toNat) :
    c ≠ x := by
  intro he
  subst he
  have := isDig_toNat h
  omega

theorem isDig_not_space {c : Char} (h : isDig c = true) : pyIsSpace c = false := by
  have hs : ∀ x : Char, x.toNat < 48 → c ≠ x := fun x hx => isDig_ne h (Or.inl hx)
  simp only [pyIsSpace, Bool.or_eq_false_iff, decide_eq_false_iff_not]
  exact ⟨⟨⟨⟨⟨hs ' ' (by decide), hs '\t' (by decide)⟩, hs '\n' (by decide)⟩,
    hs '\r' (by decide)⟩, hs '\x0b' (by decide)⟩, hs '\x0c' (by decide)⟩

theorem digitsOk_all {cs : List Char} (hne : cs ≠ []) (h : ∀ c ∈ cs, isDig c = true) :
    digitsOk cs = true := by
  induction cs with
  | nil => exact absurd rfl hne
  | cons c rest ih =>
    cases rest with
    | nil => simpa [digitsOk] using h c (by simp)
    | cons d rest2 =>
      have hd : isDig d = true := h d (by simp)
      have hund : ¬ d = '_' := isDig_ne hd (by right; decide)
      rw [digitsOk, if_neg hund]
      have h1 : isDig c = true := h c (by simp)
      have h2 : digitsOk (d :: rest2) = true := by
        refine ih (by simp) ?_
        intro x hx
        exact h x (by simp [hx])
      simp [h1, h2]

theorem foldl_mul10 (L : List Nat) (acc : Nat) :
    L.reverse.foldl (fun a d => a * 10 + d) acc =
      acc * 10 ^ L.length + Nat.ofDigits 10 L := by
  induction L generalizing acc with
  | nil => simp [Nat.ofDigits]
  | cons d L ih =>
    rw [List.reverse_cons, List.foldl_append, ih]
    have hc : Nat.ofDigits 10 (d :: L) = d + 10 * Nat.ofDigits 10 L := by
      simpa using Nat.ofDigits_cons
    simp only [List.foldl_cons, List.foldl_nil, hc, List.length_cons]
    ring

theorem digitsVal_map (L : List Nat) (h : ∀ d ∈ L, d < 10) :
    digitsVal (L.reverse.map digitChar10) = Nat.ofDigits 10 L := by
  unfold digitsVal
  rw [List.foldl_map]
  have hext : L.reverse.foldl
      (fun a d => if digitChar10 d = '_' then a else a * 10 + ((digitChar10 d).toNat - 48)) 0 =
      L.reverse.foldl (fun a d => a * 10 + d) 0 := by
    refine List.foldl_ext _ _ _ ?_
    intro a d hd
    have hd10 : d < 10 := h d (List.mem_reverse.mp hd)
    have hne : ¬ digitChar10 d = '_' :=
      isDig_ne (digitChar10_isDig d hd10) (by right; decide)
    rw [if_neg hne, digitChar10_toNat d hd10]
    omega
  rw [hext, foldl_mul10]
  simp

theorem dropWhile_no_match {p : Char → Bool} {cs : List Char}
    (h : ∀ c ∈ cs, p c = false) : cs.dropWhile p = cs := by
  cases cs with
  | nil => rfl
  | cons c rest =>
    rw [List.dropWhile_cons, if_neg]
    simp [h c (by simp)]

theorem pyStrip_no_space {cs : List Char} (h : ∀ c ∈ cs, pyIsSpace c = false) :
    pyStripChars cs = cs := by
  unfold pyStripChars
  rw [dropWhile_no_match h, dropWhile_no_match, List.reverse_reverse]
  intro c hc
  exact h c (List.mem_reverse.mp hc)

theorem natRepr_data (n : Nat) (h : n ≠ 0) :
    (natRepr n).data = (Nat.digits 10 n).reverse.map digitChar10 := by
  rw [natRepr, if_neg h, toDigitsRev_eq n n (le_refl n)]

theorem natRepr_all_digits (n : Nat) : ∀ c ∈ (natRepr n).data, isDig c = true := by
  by_cases h : n = 0
  · subst h; decide
  · rw [natRepr_data n h]
    intro c hc
    obtain ⟨d, hd, hcd⟩ := List.mem_map.mp hc
    subst hcd
    exact digitChar10_isDig d
      (Nat.digits_lt_base (by norm_num) (List.mem_reverse.mp hd))

theorem natRepr_ne_nil (n : Nat) : (natRepr n).data ≠ [] := by
  by_cases h : n = 0
  · subst h; decide
  · rw [natRepr_data n h]
    simp [Nat.digits_ne_nil_iff_ne_zero.mpr h]

theorem digitsVal_natRepr (n : Nat) : digitsVal (natRepr n).data = n := by
  by_cases h : n = 0
  · subst h; decide
  · rw [natRepr_data n h,
      digitsVal_map _ (fun d hd => Nat.digits_lt_base (by norm_num) hd),
      Nat.ofDigits_digits]

theorem pyIntChars_natRepr (n : Nat) : pyIntChars (natRepr n).data = some (n : Int) := by
  have hdig := natRepr_all_digits n
  have hstrip : pyStripChars (natRepr n).data = (natRepr n).data :=
    pyStrip_no_space (fun c hc => isDig_not_space (hdig c hc))
  rcases hdata : (natRepr n).data with _ | ⟨c, rest⟩
  · exact absurd hdata (natRepr_ne_nil n)
  · have hc : isDig c = true := hdig c (by rw [hdata]; simp)
    unfold pyIntChars
    rw [hdata] at hstrip
    rw [hstrip]
    simp only []
    rw [if_neg (isDig_ne hc (by left; decide)), if_neg (isDig_ne hc (by left; decide))]
    have hok : digitsOk (c :: rest) = true := by
      rw [← hdata]
      exact digitsOk_all (natRepr_ne_nil n) hdig
    rw [digitsParse, if_pos hok]
    have hval : digitsVal (c :: rest) = n := by
      rw [← hdata]; exact digitsVal_natRepr n
    simp [hval]

theorem pyInt_natRepr (n : Nat) : pyInt (natRepr n) = some (n : Int) :=
  pyIntChars_natRepr n

theorem intRepr_ofNat (n : Nat) : intRepr (n : Int) = natRepr n := by
  rw [intRepr, if_neg (by omega)]
  norm_num

theorem pyIntE_natRepr (n : Nat) : pyIntE (natRepr n) = .ok (n : Int) := by
  rw [pyIntE, pyInt_natRepr n]

/-! ## Shared lemmas about `resolve_value` and `set_var` -/

theorem resolve_value_int (val : String) {n : Int}
    (hv : strHead val 'v' = false) (hg : strHead val 'g' = false)
    (ha : strHead val 'a' = false) (hq : strHead val '"' = false)
    (hd : strHasDot val = false) (hn : pyInt val = some n) :
    resolve_value val = .ok ("(i32.const " ++ intRepr n ++ ")") := by
  simp [resolve_value, hv, hg, ha, hq, hd, hn]

theorem resolve_value_fallback (val : String)
    (hv : strHead val 'v' = false) (hg : strHead val 'g' = false)
    (ha : strHead val 'a' = false) (hq : strHead val '"' = false)
    (hd : strHasDot val = false) (hn : pyInt val = none) :
    resolve_value val = .ok "(i32.const 0)" := by
  simp [resolve_value, hv, hg, ha, hq, hd, hn]

theorem set_var_v (var : String) {d : Int}
    (hv : strHead var 'v' = true) (hn : pyInt (strTail var) = some d) :
    set_var var = .ok ("(local.set $v" ++ intRepr d ++ ")") := by
  simp [set_var, hv, hn]

/-! ## Claim C4 -/

/-- Claim C4 (confirmed): in the dispatch-loop path, a jump instruction
(unconditional `@` or conditional `?`) whose target label id has no entry in
the state map compiles to setting the dispatch variable to state 0 (the
entry region) and restarting the loop; no error is raised. -/
theorem C4_unknown_target (sm : List (Int × Int)) (c s cc : String) (t : Int)
    (hn : pyInt s = some t) (hdg : dget sm t = none)
    (hcc : resolve_value c = .ok cc) :
    emitStateInstr sm ["@", s] =
      .ok (["        (local.set $_state (i32.const 0))",
            "        (br $loop)"], true) ∧
    emitStateInstr sm ["?", c, s] =
      .ok (["        " ++ cc,
            "        (if",
            "          (then",
            "            (local.set $_state (i32.const 0))",
            "            (br $loop)",
            "          )",
            "        )"], false) := by
  constructor
  · simp [emitStateInstr, head0, tget, pyIntE, hn, hdg, bind, Except.bind]
    rfl
  · simp [emitStateInstr, head0, tget, pyIntE, hn, hdg, hcc, bind, Except.bind]
    rfl

/-- Witness for C4: label `7` is undefined in the one-label body `{1}`. -/
theorem C4_unknown_target_witness :
    emitStateInstr (stateMapOf [1]) ["@", "7"] =
      .ok (["        (local.set $_state (i32.const 0))",
            "        (br $loop)"], true) ∧
    emitStateInstr (stateMapOf [1]) ["?", "v0", "7"] =
      .ok (["        (local.get $v0)",
            "        (if",
            "          (then",
            "            (local.set $_state (i32.const 0))",
            "            (br $loop)",
            "          )",
            "        )"], false) :=
  C4_unknown_target (stateMapOf [1]) "v0" "7" "(local.get $v0)" 7 rfl rfl rfl

/-! ## Claim C5 -/

/-- Claim C5 counterexample: `"x.y"` is not sigil-prefixed and is neither a
valid integer nor a valid float, yet `resolve_value` raises (`int(float())`
in the `'.' in val` branch is unguarded) instead of returning the
push-zero fallback the claim promises. -/
theorem C5_counterexample :
    strHead "x.y" 'v' = false ∧ strHead "x.y" 'g' = false ∧
    strHead "x.y" 'a' = false ∧ strHead "x.y" '"' = false ∧
    pyInt "x.y" = none ∧ pyFloat "x.y" = none ∧
    resolve_value "x.y" = .error "ValueError" ∧
    ¬ resolve_value "x.y" = .ok "(i32.const 0)" := by
  refine ⟨rfl, rfl, rfl, rfl, rfl, rfl, rfl, ?_⟩
  intro h
  rw [show resolve_value "x.y" = .error "ValueError" from rfl] at h
  cases h

/-- Claim C5 as amended (proved): for an operand token that is not
sigil-prefixed, contains no `'.'`, and is not a valid integer,
`resolve_value` totally returns the push-integer-constant-zero operation.
(Tokens containing a `'.'` that are not valid floats raise instead —
see the counterexample.) -/
theorem C5_zero_fallback (val : String)
    (hv : strHead val 'v' = false) (hg : strHead val 'g' = false)
    (ha : strHead val 'a' = false) (hq : strHead val '"' = false)
    (hd : strHasDot val = false) (hn : pyInt val = none) :
    resolve_value val = .ok "(i32.const 0)" := by
  simp [resolve_value, hv, hg, ha, hq, hd, hn]

/-- Witness for C5: the bare word `hello`. -/
theorem C5_zero_fallback_witness : resolve_value "hello" = .ok "(i32.const 0)" :=
  C5_zero_fallback "hello" rfl rfl rfl rfl rfl rfl

/-! ## Claim C10 -/

/-- Claim C10 (confirmed): `transpile` is not total over tokenized inputs —
the program `. value` is tokenized successfully, but the operand `value`
begins with the sigil `v` and its remainder `alue` is fed to an unguarded
integer conversion, so the whole compilation raises. -/
theorem C10_not_total :
    parse_line ". value" = some [".", "value"] ∧
    transpile ". value" = .error "ValueError" :=
  ⟨rfl, rfl⟩

/-! ## Claim C8 -/

theorem insertUniq_ne_nil (xs : List Int) (v : Int) : insertUniq xs v ≠ [] := by
  rw [insertUniq]
  split
  · intro h
    subst h
    simp_all
  · simp

theorem labelsLoop_no_labels (ls : List (List String)) (acc : List Int)
    (h : ∀ l ∈ ls, ¬(l ≠ [] ∧ head0 l = ":")) : labelsLoop ls acc = .ok acc := by
  induction ls generalizing acc with
  | nil => rfl
  | cons l ls ih =>
    rw [labelsLoop, if_neg (by simpa using h l (by simp))]
    exact ih acc (fun x hx => h x (by simp [hx]))

theorem labelsLoop_ne_nil (ls : List (List String)) (acc r : List Int)
    (hacc : acc ≠ []) (h : labelsLoop ls acc = .ok r) : r ≠ [] := by
  induction ls generalizing acc with
  | nil =>
    rw [labelsLoop] at h
    cases h
    exact hacc
  | cons l ls ih =>
    rw [labelsLoop] at h
    split at h
    · rcases htg : tget l 1 with e | t <;> rw [htg] at h
      · cases h
      · rcases hpi : pyIntE t with e | v <;> simp only [hpi, bind, Except.bind] at h
        · cases h
        · exact ih (insertUniq acc v) (insertUniq_ne_nil acc v) h
    · exact ih acc hacc h

theorem labelsOf_nil_no_labels (ls : List (List String))
    (h : labelsOf ls = .ok []) : ∀ l ∈ ls, ¬(l ≠ [] ∧ head0 l = ":") := by
  suffices haux : ∀ (ms : List (List String)) (acc : List Int),
      labelsLoop ms acc = .ok [] → ∀ l ∈ ms, ¬(l ≠ [] ∧ head0 l = ":") by
    exact haux ls [] h
  intro ms
  induction ms with
  | nil => intro acc _ l hl; cases hl
  | cons m ms ih =>
    intro acc hacc l hl
    rw [labelsLoop] at hacc
    by_cases hg : (m ≠ [] ∧ head0 m = ":")
    · rw [if_pos (by simpa using hg)] at hacc
      exfalso
      rcases htg : tget m 1 with e | t <;> rw [htg] at hacc
      · cases hacc
      · rcases hpi : pyIntE t with e | v <;> simp only [hpi, bind, Except.bind] at hacc
        · cases hacc
        · exact labelsLoop_ne_nil ms _ _ (insertUniq_ne_nil acc v) hacc rfl
    · rw [if_neg (by simpa using hg)] at hacc
      rcases List.mem_cons.mp hl with h1 | h1
      · subst h1; exact hg
      · exact ih acc hacc l h1

theorem transpile_instruction_jump (ts : List String) (h : head0 ts = "@") :
    transpile_instruction ts = .ok [] := by
  cases ts with
  | nil => rfl
  | cons op rest =>
    have hop : op = "@" := by simpa [head0] using h
    subst hop
    simp [transpile_instruction]

theorem noLabelLine_jump (t : String) : noLabelLine ["@", t] = .ok [] := by
  have h := transpile_instruction_jump ["@", t] rfl
  simp [noLabelLine, head0, h]

theorem linearLoop_append (l1 l2 : List (List String)) (acc : List String) :
    linearLoop (l1 ++ l2) acc = (linearLoop l1 acc).bind (fun a => linearLoop l2 a) := by
  induction l1 generalizing acc with
  | nil => rfl
  | cons l ls ih =>
    rw [List.cons_append, linearLoop]
    conv_rhs => rw [linearLoop]
    rcases hn : noLabelLine l with e | cs <;> simp only [hn, bind, Except.bind]
    exact ih (acc ++ cs)

/-- Claim C8 as amended (proved): in a body with no label markers, an
unconditional-jump line `@ t` compiles to no instructions at all — it is
silently dropped (not a structured immediate return): the instruction
encoder has no `@` case, and removing the `@` line leaves the compiled
block unchanged. -/
theorem C8_jump_dropped :
    (∀ ts : List String, head0 ts = "@" → transpile_instruction ts = .ok []) ∧
    (∀ (pre post : List (List String)) (t : String),
      labelsOf (pre ++ ["@", t] :: post) = .ok [] →
      transpile_block (pre ++ ["@", t] :: post) = transpile_block (pre ++ post)) := by
  constructor
  · exact transpile_instruction_jump
  · intro pre post t h
    have hall := labelsOf_nil_no_labels _ h
    have h2 : labelsOf (pre ++ post) = .ok [] := by
      refine labelsLoop_no_labels _ _ ?_
      intro l hl
      rcases List.mem_append.mp hl with h1 | h1
      · exact hall l (by simp [h1])
      · exact hall l (by simp [h1])
    rw [transpile_block, transpile_block, h, h2]
    simp only [bind, Except.bind, ne_eq, not_true_eq_false, if_false, reduceIte]
    rw [linearLoop_append, linearLoop_append]
    refine congrArg _ (funext fun a => ?_)
    rw [linearLoop, noLabelLine_jump]
    simp only [bind, Except.bind, List.append_nil]

/-- Witness for C8: dropping `@ 5` from a label-free body. -/
theorem C8_jump_dropped_witness :
    transpile_instruction ["@", "5"] = .ok [] ∧
    transpile_block [[".", "7"], ["@", "5"], ["=", "v0", "2"]] =
      transpile_block [[".", "7"], ["=", "v0", "2"]] :=
  ⟨C8_jump_dropped.1 ["@", "5"] rfl,
   C8_jump_dropped.2 [[".", "7"]] [["=", "v0", "2"]] "5" rfl⟩

/-- Claim C8 counterexample: in the label-free body `[@ 5]` the
unconditional jump compiles to the empty instruction list — the compiled
block contains no `(return)` at all, contradicting the claimed structured
immediate return. -/
theorem C8_counterexample :
    labelsOf [["@", "5"]] = .ok [] ∧
    transpile_block [["@", "5"]] = .ok [] ∧
    ¬ "(return)" ∈ ([] : List String) := by
  exact ⟨rfl, rfl, by simp⟩

/-! ## Claim C9 -/

theorem scanQuoted_cons (c : Char) (rest : List Char) :
    scanQuoted (c :: rest) =
      (if c = '"' then ([c], rest)
       else if c = '\\' then
         match rest with
         | [] => ([c], [])
         | d :: rest2 => (c :: d :: (scanQuoted rest2).1, (scanQuoted rest2).2)
       else (c :: (scanQuoted rest).1, (scanQuoted rest).2)) := by
  rw [scanQuoted.eq_def]

theorem tokenizeF_succ (fuel : Nat) (c : Char) (rest : List Char) :
    tokenizeF (fuel + 1) (c :: rest) =
      (if (c = ' ' || c = '\t') then tokenizeF fuel rest
       else if c = '"' then
         String.mk (c :: (scanQuoted rest).1) :: tokenizeF fuel (scanQuoted rest).2
       else
         String.mk (c :: rest.takeWhile (fun d => ¬ (d = ' ' || d = '\t'))) ::
           tokenizeF fuel (rest.dropWhile (fun d => ¬ (d = ' ' || d = '\t')))) := rfl

theorem dropWhile_length_le (p : Char → Bool) (cs : List Char) :
    (cs.dropWhile p).length ≤ cs.length := by
  induction cs with
  | nil => simp
  | cons c rest ih =>
    rw [List.dropWhile_cons]
    split
    · simp; omega
    · simp

theorem scanQuoted_rest_le (cs : List Char) : (scanQuoted cs).2.length ≤ cs.length := by
  generalize hn : cs.length = n
  induction n using Nat.strong_induction_on generalizing cs with
  | _ n ih =>
    cases cs with
    | nil => simp [scanQuoted]
    | cons c rest =>
      rw [scanQuoted_cons]
      by_cases h1 : c = '"'
      · rw [if_pos h1]
        simp at hn ⊢
        omega
      · rw [if_neg h1]
        by_cases h2 : c = '\\'
        · rw [if_pos h2]
          cases rest with
          | nil => simp
          | cons d rest2 =>
            have hr := ih rest2.length (by simp at hn; omega) rest2 rfl
            simp at hn ⊢
            omega
        · rw [if_neg h2]
          have hr := ih rest.length (by simp at hn; omega) rest rfl
          simp at hn ⊢
          omega

theorem tokenizeF_fuel_irrel (f1 : Nat) : ∀ (f2 : Nat) (cs : List Char),
    cs.length < f1 → cs.length < f2 → tokenizeF f1 cs = tokenizeF f2 cs := by
  induction f1 with
  | zero => intro f2 cs h1 _; omega
  | succ f1 ih =>
    intro f2 cs h1 h2
    cases cs with
    | nil => cases f2 <;> rfl
    | cons c rest =>
      cases f2 with
      | zero => omega
      | succ f2 =>
        rw [tokenizeF_succ, tokenizeF_succ]
        by_cases hsp : (c = ' ' || c = '\t') = true
        · rw [if_pos hsp, if_pos hsp]
          simp at h1 h2
          exact ih f2 rest (by omega) (by omega)
        · rw [if_neg hsp, if_neg hsp]
          by_cases hq : c = '"'
          · rw [if_pos hq, if_pos hq]
            have hle := scanQuoted_rest_le rest
            have hlt : (scanQuoted rest).2.length < f1 ∧ (scanQuoted rest).2.length < f2 := by
              simp at h1 h2; omega
            rw [ih f2 (scanQuoted rest).2 hlt.1 hlt.2]
          · rw [if_neg hq, if_neg hq]
            have hle := dropWhile_length_le (fun d => ¬ (d = ' ' || d = '\t')) rest
            have hlt : (rest.dropWhile fun d => ¬ (d = ' ' || d = '\t')).length < f1 ∧
                (rest.dropWhile fun d => ¬ (d = ' ' || d = '\t')).length < f2 := by
              simp at h1 h2
              constructor <;> omega
            rw [ih f2 _ hlt.1 hlt.2]

theorem stripComment_first (pre post : List Char) (h : ¬ ';' ∈ pre) :
    stripComment (pre ++ ';' :: post) = pre := by
  induction pre with
  | nil => simp [stripComment]
  | cons c cs ih =>
    rw [List.cons_append, stripComment, List.takeWhile_cons]
    have hc : ¬ c = ';' := fun e => h (by simp [e])
    rw [if_pos (by simpa using hc)]
    rw [stripComment] at ih
    rw [ih (fun hm => h (by simp [hm]))]

theorem scanQuoted_plain (inner rest : List Char)
    (hq : ¬ '"' ∈ inner) (hb : ¬ '\\' ∈ inner) :
    scanQuoted (inner ++ '"' :: rest) = (inner ++ ['"'], rest) := by
  induction inner with
  | nil =>
    rw [List.nil_append, scanQuoted_cons, if_pos rfl]
    simp
  | cons c cs ih =>
    rw [List.cons_append, scanQuoted_cons]
    rw [if_neg (fun e => hq (by simp [e])), if_neg (fun e => hb (by simp [e]))]
    rw [ih (fun hm => hq (by simp [hm])) (fun hm => hb (by simp [hm]))]
    simp

/-- Claim C9 as amended (proved): the comment strip removes the text from the
first `;` to end of line unconditionally — quoting and backslashes do not
protect a `;` — and, in the comment-stripped text, a double-quoted segment
(quotes included) becomes a single token. -/
theorem C9_tokenizer :
    (∀ pre post : List Char, ¬ ';' ∈ pre → stripComment (pre ++ ';' :: post) = pre) ∧
    (∀ inner rest : List Char, ¬ '"' ∈ inner → ¬ '\\' ∈ inner →
      tokenize ('"' :: inner ++ '"' :: rest) =
        String.mk ('"' :: (inner ++ ['"'])) :: tokenize rest) := by
  constructor
  · exact stripComment_first
  · intro inner rest hq hb
    rw [tokenize, List.cons_append, tokenizeF_succ]
    rw [if_neg (by decide), if_pos rfl]
    rw [scanQuoted_plain inner rest hq hb]
    rw [tokenize]
    rw [tokenizeF_fuel_irrel _ (rest.length + 1) rest (by simp; omega) (by omega)]

/-- Witness for C9: comment stripping and the quoted token `"ab"`. -/
theorem C9_tokenizer_witness :
    stripComment ([' ', 'x'] ++ ';' :: ['y']) = [' ', 'x'] ∧
    tokenize ('"' :: ['a', 'b'] ++ '"' :: [' ', 'z']) =
      String.mk ('"' :: (['a', 'b'] ++ ['"'])) :: tokenize [' ', 'z'] :=
  ⟨C9_tokenizer.1 [' ', 'x'] ['y'] (by decide),
   C9_tokenizer.2 ['a', 'b'] [' ', 'z'] (by decide) (by decide)⟩

/-- Claim C9 counterexample: in `. "a;b"` the `;` sits inside a double-quoted
segment, yet the tokenizer truncates the line there: the produced tokens are
`[".", "\"a"]`, not the claimed single quoted token `"a;b"`. -/
theorem C9_counterexample :
    parse_line ". \"a;b\"" = some [".", "\"a"] ∧
    ¬ parse_line ". \"a;b\"" = some [".", "\"a;b\""] := by
  refine ⟨rfl, ?_⟩
  intro h
  rw [show parse_line ". \"a;b\"" = some [".", "\"a"] from rfl] at h
  simp at h

/-! ## Claim C3 -/

theorem emitStateInstr_flag (sm : List (Int × Int)) (l : List String)
    (cs : List String) (j : Bool) (h : emitStateInstr sm l = .ok (cs, j)) :
    j = (decide (head0 l = "@") || decide (head0 l = "^")) := by
  rw [emitStateInstr] at h
  by_cases h1 : head0 l = "?"
  · rw [if_pos h1] at h
    rcases ht : tget l 1 with e | t
    · rw [ht] at h; simp [bind, Except.bind] at h
    rw [ht] at h; simp only [bind, Except.bind] at h
    rcases hr : resolve_value t with e | cond
    · rw [hr] at h; simp at h
    rw [hr] at h; simp only [] at h
    rcases ht2 : tget l 2 with e | t2
    · rw [ht2] at h; simp at h
    rw [ht2] at h; simp only [] at h
    rcases hp : pyIntE t2 with e | v
    · rw [hp] at h; simp at h
    rw [hp] at h; simp only [] at h
    cases h
    simp [h1]
  · rw [if_neg h1] at h
    by_cases h2 : head0 l = "@"
    · rw [if_pos h2] at h
      rcases ht : tget l 1 with e | t
      · rw [ht] at h; simp [bind, Except.bind] at h
      rw [ht] at h; simp only [bind, Except.bind] at h
      rcases hp : pyIntE t with e | v
      · rw [hp] at h; simp at h
      rw [hp] at h; simp only [] at h
      cases h
      simp [h2]
    · rw [if_neg h2] at h
      by_cases h3 : head0 l = "^"
      · rw [if_pos h3] at h
        rcases ht : tget l 1 with e | t
        · rw [ht] at h; simp [bind, Except.bind] at h
        rw [ht] at h; simp only [bind, Except.bind] at h
        rcases hr : resolve_value t with e | v
        · rw [hr] at h; simp at h
        rw [hr] at h; simp only [] at h
        cases h
        simp [h2, h3]
      · rw [if_neg h3] at h
        by_cases h4 : head0 l = "$"
        · rw [if_pos h4] at h
          rcases ht : tget l 1 with e | rv
          · rw [ht] at h; simp [bind, Except.bind] at h
          rw [ht] at h; simp only [bind, Except.bind] at h
          rcases ht2 : tget l 2 with e | fid
          · rw [ht2] at h; simp at h
          rw [ht2] at h; simp only [] at h
          rcases hm : (l.drop 3).mapM resolve_value with e | acodes
          · rw [hm] at h; simp at h
          rw [hm] at h; simp only [] at h
          rcases hs : set_var rv with e | sv
          · rw [hs] at h; simp at h
          rw [hs] at h; simp only [] at h
          cases h
          simp [h2, h3]
        · rw [if_neg h4] at h
          rcases hti : transpile_instruction l with e | insts
          · rw [hti] at h; simp [Except.map] at h
          rw [hti] at h; simp only [Except.map] at h
          cases h
          simp [h2, h3]

theorem emitStateLoop_flag (sm : List (Int × Int)) (ls : List (List String)) :
    ∀ (acc : List String × Bool) (out : List String × Bool),
    emitStateLoop sm ls acc = .ok out → out.2 = (acc.2 || hasJumpIn ls) := by
  induction ls with
  | nil =>
    intro acc out h
    rw [emitStateLoop] at h
    cases h
    simp [hasJumpIn]
  | cons l ls ih =>
    intro acc out h
    rw [emitStateLoop] at h
    rcases he : emitStateInstr sm l with e | p
    · rw [he] at h; simp [bind, Except.bind] at h
    rw [he] at h
    simp only [bind, Except.bind] at h
    obtain ⟨cs, j⟩ := p
    have hflag := emitStateInstr_flag sm l cs j he
    have hrec := ih (acc.1 ++ cs, acc.2 || j) out h
    rw [hrec, hflag]
    simp [hasJumpIn, Bool.or_assoc]

theorem emitStateBody_flag (sm : List (Int × Int)) (ls : List (List String))
    (body : List String) (hj : Bool) (h : emitStateBody sm ls = .ok (body, hj)) :
    hj = hasJumpIn ls := by
  have := emitStateLoop_flag sm ls ([], false) (body, hj) h
  simpa using this

/-- Claim C3 as amended (proved): inside the dispatch loop, the synthesized
fallthrough transition at the end of a state's conditional is suppressed if
and only if the state's instruction list contains an unconditional jump `@`
or a return `^` anywhere (not only as the last instruction); a conditional
jump `?` never suppresses it.  When emitted, the transition is the single
`fallLines` block: set the dispatch variable to the next state id and
restart the loop when the next state exists, else exit the outer scope. -/
theorem C3_fallthrough (sm : List (Int × Int))
    (states : List (Int × List (List String))) (sid : Int)
    (stateLines : List (List String)) (body : List String) (hj : Bool)
    (h : emitStateBody sm stateLines = .ok (body, hj)) :
    (hj = true ↔ ∃ l ∈ stateLines, head0 l = "@" ∨ head0 l = "^") ∧
    stateSegment sm states sid stateLines =
      .ok (["    ;; State " ++ intRepr sid,
            "    (if (i32.eq (local.get $_state) (i32.const " ++ intRepr sid ++ "))",
            "      (then"] ++ body ++
           (if hj then [] else fallLines states sid) ++
           ["      )", "    )"]) := by
  constructor
  · rw [emitStateBody_flag sm stateLines body hj h]
    simp [hasJumpIn, List.any_eq_true]
  · rw [stateSegment, h]
    simp only [bind, Except.bind]

/-- Witness for C3: the one-instruction state `[? v0 1]` (no `@`/`^`), whose
fallthrough is emitted. -/
theorem C3_fallthrough_witness :
    ((false : Bool) = true ↔
      ∃ l ∈ [["?", "v0", "1"]], head0 l = "@" ∨ head0 l = "^") ∧
    stateSegment (stateMapOf [1]) [(0, []), (1, [["?", "v0", "1"]])] 1
        [["?", "v0", "1"]] =
      .ok (["    ;; State 1",
            "    (if (i32.eq (local.get $_state) (i32.const 1))",
            "      (then"] ++
           ["        (local.get $v0)",
            "        (if",
            "          (then",
            "            (local.set $_state (i32.const 1))",
            "            (br $loop)",
            "          )",
            "        )"] ++
           (if false then [] else fallLines [(0, []), (1, [["?", "v0", "1"]])] 1) ++
           ["      )", "    )"]) :=
  C3_fallthrough (stateMapOf [1]) [(0, []), (1, [["?", "v0", "1"]])] 1
    [["?", "v0", "1"]]
    ["        (local.get $v0)",
     "        (if",
     "          (then",
     "            (local.set $_state (i32.const 1))",
     "            (br $loop)",
     "          )",
     "        )"] false rfl

/-- Claim C3 counterexample: the body `[: 1, ? v0 1]` compiles through the
dispatch loop; state 1's last (and only) instruction is the conditional
jump `?`, yet its conditional ends with the synthesized fallthrough
`(br $exit)` right before the two closing brackets — the claim said a state
ending in a jump never gets one. -/
theorem C3_counterexample :
    transpile_block [[":", "1"], ["?", "v0", "1"]] =
      .ok ["(local $_state i32)",
           "(local.set $_state (i32.const 0))",
           "(block $exit",
           "  (loop $loop",
           "    ;; State 0",
           "    (if (i32.eq (local.get $_state) (i32.const 0))",
           "      (then",
           "        (local.set $_state (i32.const 1))",
           "        (br $loop)",
           "      )",
           "    )",
           "    ;; State 1",
           "    (if (i32.eq (local.get $_state) (i32.const 1))",
           "      (then",
           "        (local.get $v0)",
           "        (if",
           "          (then",
           "            (local.set $_state (i32.const 1))",
           "            (br $loop)",
           "          )",
           "        )",
           "        (br $exit)",
           "      )",
           "    )",
           "    (br $exit)",
           "  )",
           ")"] := by
  rfl

/-! ## Claim C7 -/

theorem collectFnsF_nil (fuel : Nat) (fns : List (Int × (Int × List (List String))))
    (info : Info) : collectFnsF fuel [] fns info = .ok (fns, info) := by
  cases fuel <;> rfl

theorem splitFuncBody_flat (b rest : List (List String))
    (hb : ∀ l ∈ b, ¬ head0 l = "#" ∧ ¬ head0 l = "\x7d") :
    splitFuncBody (b ++ ["\x7d"] :: rest) 1 = (b, rest) := by
  induction b with
  | nil => rw [List.nil_append, splitFuncBody]; simp [head0]
  | cons l ls ih =>
    rw [List.cons_append, splitFuncBody]
    rw [if_neg (hb l (by simp)).1, if_neg (hb l (by simp)).2]
    rw [ih (fun x hx => hb x (by simp [hx]))]

theorem collectFnsF_one (fuel : Nat) (s a : String) (fid argc : Int)
    (b : List (List String)) (fns : List (Int × (Int × List (List String))))
    (info : Info) (hs : pyInt s = some fid) (ha : pyInt a = some argc)
    (hb : ∀ l ∈ b, ¬ head0 l = "#" ∧ ¬ head0 l = "\x7d")
    (hf : 1 ≤ fuel) :
    collectFnsF fuel (["#", s, a] :: (b ++ [["\x7d"]])) fns info =
      .ok (dset fns fid (argc, b), collect_info info b) := by
  cases fuel with
  | zero => omega
  | succ fuel =>
    rw [collectFnsF, if_pos (show head0 ["#", s, a] = "#" from rfl)]
    simp only [tget, List.get?, bind, Except.bind, pyIntE, hs, ha]
    rw [show (b ++ [["\x7d"]]) = (b ++ ["\x7d"] :: []) from by simp]
    rw [splitFuncBody_flat b [] hb]
    exact collectFnsF_nil fuel _ _

theorem collectFnsF_two (fuel : Nat) (s a a2 : String) (fid argc argc2 : Int)
    (b1 b2 : List (List String)) (fns : List (Int × (Int × List (List String))))
    (info : Info) (hs : pyInt s = some fid) (ha : pyInt a = some argc)
    (ha2 : pyInt a2 = some argc2)
    (hb1 : ∀ l ∈ b1, ¬ head0 l = "#" ∧ ¬ head0 l = "\x7d")
    (hb2 : ∀ l ∈ b2, ¬ head0 l = "#" ∧ ¬ head0 l = "\x7d")
    (hf : 2 ≤ fuel) :
    collectFnsF fuel
      (["#", s, a] :: (b1 ++ (["\x7d"] :: (["#", s, a2] :: (b2 ++ [["\x7d"]])))))
      fns info =
      .ok (dset (dset fns fid (argc, b1)) fid (argc2, b2),
           collect_info (collect_info info b1) b2) := by
  cases fuel with
  | zero => omega
  | succ fuel =>
    rw [collectFnsF, if_pos (show head0 ["#", s, a] = "#" from rfl)]
    simp only [tget, List.get?, bind, Except.bind, pyIntE, hs, ha]
    rw [splitFuncBody_flat b1 (["#", s, a2] :: (b2 ++ [["\x7d"]])) hb1]
    exact collectFnsF_one fuel s a2 fid argc2 b2 _ _ hs ha2 hb2 (by omega)

/-- Claim C7 as amended (proved): when two function-begin lines declare the
same function id, compilation does not fail — the second definition silently
overwrites the first in the function table (Python dict assignment), and the
collection loop returns successfully. -/
theorem C7_duplicate_overwrite (s a a2 : String) (fid argc argc2 : Int)
    (b1 b2 : List (List String)) (info : Info)
    (hs : pyInt s = some fid) (ha : pyInt a = some argc)
    (ha2 : pyInt a2 = some argc2)
    (hb1 : ∀ l ∈ b1, ¬ head0 l = "#" ∧ ¬ head0 l = "\x7d")
    (hb2 : ∀ l ∈ b2, ¬ head0 l = "#" ∧ ¬ head0 l = "\x7d") :
    collectFns
      (["#", s, a] :: (b1 ++ (["\x7d"] :: (["#", s, a2] :: (b2 ++ [["\x7d"]])))))
      info =
      .ok ([(fid, (argc2, b2))], collect_info (collect_info info b1) b2) := by
  rw [collectFns]
  rw [collectFnsF_two _ s a a2 fid argc argc2 b1 b2 [] info hs ha ha2 hb1 hb2
    (by simp [List.length_append])]
  simp [dset]

/-- Witness for C7: two definitions of function id 0; the second body wins. -/
theorem C7_duplicate_overwrite_witness :
    collectFns
      (["#", "0", "0"] ::
        ([["^", "1"]] ++ (["\x7d"] :: (["#", "0", "0"] :: ([["^", "2"]] ++ [["\x7d"]])))))
      ⟨false, []⟩ =
      .ok ([(0, (0, [["^", "2"]]))],
           collect_info (collect_info ⟨false, []⟩ [["^", "1"]]) [["^", "2"]]) :=
  C7_duplicate_overwrite "0" "0" "0" 0 0 0 [["^", "1"]] [["^", "2"]] ⟨false, []⟩
    rfl rfl rfl (by decide) (by decide)

/-- Claim C7 counterexample: the program defining function id 0 twice
compiles successfully (the claim said compilation must fail before any
emission), and the function table maps id 0 to the second body `^ 2`. -/
theorem C7_counterexample :
    collectFns (parsedLines "# 0 0\n^ 1\n\x7d\n# 0 0\n^ 2\n\x7d") ⟨false, []⟩ =
      .ok ([(0, (0, [["^", "2"]]))], ⟨false, []⟩) ∧
    (transpile "# 0 0\n^ 1\n\x7d\n# 0 0\n^ 2\n\x7d").isOk = true :=
  ⟨rfl, rfl⟩

/-! ## Claim C6 -/

theorem pyIntChars_intRepr (i : Int) : pyIntChars (intRepr i).data = some i := by
  by_cases hneg : i < 0
  · rw [intRepr, if_pos hneg, String.data_append]
    have hdig := natRepr_all_digits i.natAbs
    have hne := natRepr_ne_nil i.natAbs
    have hstrip : pyStripChars ("-".data ++ (natRepr i.natAbs).data) =
        "-".data ++ (natRepr i.natAbs).data := by
      refine pyStrip_no_space ?_
      intro x hx
      rcases List.mem_append.mp hx with h1 | h1
      · simp at h1; subst h1; decide
      · exact isDig_not_space (hdig x h1)
    unfold pyIntChars
    rw [hstrip]
    rw [show ("-".data : List Char) = ['-'] from rfl, List.singleton_append]
    simp only []
    rw [if_neg (by decide), if_pos trivial]
    rw [digitsParse, if_pos (digitsOk_all hne hdig), digitsVal_natRepr]
    simp
    rw [abs_of_neg hneg]
    ring
  · rw [intRepr, if_neg hneg]
    rw [pyIntChars_natRepr]
    congr 1
    omega

theorem strMk_data (s : String) : String.mk s.data = s := rfl

theorem dropPre_append (p cs : List Char) : dropPre p (p ++ cs) = some cs := by
  induction p with
  | nil => rfl
  | cons c ps ih =>
    rw [List.cons_append, dropPre]
    simp [ih]

theorem dropPre_cons (p c : Char) (ps cs : List Char) :
    dropPre (p :: ps) (c :: cs) = if c = p then dropPre ps cs else none := rfl

theorem dropParen_concat (cs : List Char) : dropParen (cs ++ [')']) = some cs := by
  rw [dropParen]
  simp

theorem prefix_ne (p s q t : String)
    (h : ¬ t.data.take p.data.length = p.data) : ¬ (p ++ s ++ q) = t := by
  intro he
  apply h
  rw [← he, String.append_assoc, String.data_append, List.take_left]

theorem decodeArg_hit (pre arg : String) :
    decodeArg pre (pre ++ arg ++ ")") = some arg := by
  rw [decodeArg, String.data_append, String.data_append]
  rw [show (")".data : List Char) = [')'] from rfl, List.append_assoc]
  rw [dropPre_append]
  simp [dropParen_concat, strMk_data]

theorem decodeW_const (n : Int) :
    decodeW ("(i32.const " ++ intRepr n ++ ")") = some (.constI n) := by
  rw [decodeW]
  rw [if_neg (prefix_ne "(i32.const " (intRepr n) ")" "(global.get $heap_ptr)" (by decide)),
    if_neg (prefix_ne "(i32.const " (intRepr n) ")" "(global.set $heap_ptr)" (by decide)),
    if_neg (prefix_ne "(i32.const " (intRepr n) ")" "(i32.add)" (by decide)),
    if_neg (prefix_ne "(i32.const " (intRepr n) ")" "(i32.mul)" (by decide))]
  rw [decodeArg_hit "(i32.const " (intRepr n)]
  simp [pyIntChars_intRepr]

theorem decodeW_localSet (x : String) :
    decodeW ("(local.set $" ++ x ++ ")") = some (.localSet x) := by
  rw [decodeW]
  rw [if_neg (prefix_ne "(local.set $" x ")" "(global.get $heap_ptr)" (by decide)),
    if_neg (prefix_ne "(local.set $" x ")" "(global.set $heap_ptr)" (by decide)),
    if_neg (prefix_ne "(local.set $" x ")" "(i32.add)" (by decide)),
    if_neg (prefix_ne "(local.set $" x ")" "(i32.mul)" (by decide))]
  have hconst : decodeArg "(i32.const " ("(local.set $" ++ x ++ ")") = none := by
    rw [decodeArg, String.data_append, String.data_append]
    rw [show ("(local.set $".data : List Char) =
      '(' :: 'l' :: 'o' :: 'c' :: 'a' :: 'l' :: '.' :: 's' :: 'e' :: 't' :: ' ' :: ['$']
      from rfl]
    rw [show ("(i32.const ".data : List Char) =
      '(' :: 'i' :: '3' :: '2' :: '.' :: 'c' :: 'o' :: 'n' :: 's' :: 't' :: [' ']
      from rfl]
    simp only [List.cons_append, List.append_assoc, dropPre_cons]
    simp
  rw [hconst]
  rw [decodeArg_hit "(local.set $" x]

theorem wrap32_small (x : Int) (h1 : 0 ≤ x) (h2 : x < 2 ^ 31) : wrap32 x = x := by
  rw [wrap32, Int.emod_eq_of_lt (by omega) (by omega)]
  omega

/-- Claim C6 (confirmed): `[ d n` compiles to reading the heap pointer into
`d` and bumping the heap pointer by `n * 4`; evaluating the emitted code from
heap pointer `h` ends with heap pointer `h + n * 4` and `d` holding `h`
(for sizes in the non-wrapping range), and two sequential allocations of
sizes 3 and 2 from heap pointer 0 leave it at 20. -/
theorem C6_heap_bump :
    (∀ (dt nt : String) (d n hp : Int) (L : List (String × Int)),
      strHead dt 'v' = true → pyInt (strTail dt) = some d →
      strHead nt 'v' = false → strHead nt 'g' = false → strHead nt 'a' = false →
      strHead nt '"' = false → strHasDot nt = false → pyInt nt = some n →
      0 ≤ n → 0 ≤ hp → hp + 4 * n < 2 ^ 31 →
      ∃ code, transpile_instruction ["[", dt, nt] = .ok code ∧
        watEval code ⟨[], hp, L⟩ =
          some ⟨[], hp + n * 4, sset L ("v" ++ intRepr d) hp⟩) ∧
    (∃ c1 c2, transpile_instruction ["[", "v0", "3"] = .ok c1 ∧
      transpile_instruction ["[", "v1", "2"] = .ok c2 ∧
      (watEval (c1 ++ c2) ⟨[], 0, []⟩).map WState.heap = some 20) := by
  constructor
  · intro dt nt d n hp L hdt hdd hv hg ha hq hdot hn hn0 hp0 hbound
    have hres := resolve_value_int nt hv hg ha hq hdot hn
    have hset := set_var_v dt hdt hdd
    have hti : transpile_instruction ["[", dt, nt] = .ok
        ["(global.get $heap_ptr)",
         "(local.set $v" ++ intRepr d ++ ")",
         "(global.get $heap_ptr)",
         "(i32.const " ++ intRepr n ++ ")",
         "(i32.const 4)", "(i32.mul)", "(i32.add)", "(global.set $heap_ptr)"] := by
      simp [transpile_instruction, tget, hres, hset, bind, Except.bind]
    refine ⟨_, hti, ?_⟩
    have hls : ("(local.set $v" ++ intRepr d ++ ")") =
        ("(local.set $" ++ ("v" ++ intRepr d) ++ ")") := by
      apply String.ext
      simp [String.data_append]
    have wn : wrap32 n = n := wrap32_small n (by omega) (by omega)
    have wmul : wrap32 (n * 4) = n * 4 := wrap32_small _ (by omega) (by omega)
    have wadd : wrap32 (hp + n * 4) = hp + n * 4 := wrap32_small _ (by omega) (by omega)
    simp only [watEval, List.foldlM_cons, List.foldlM_nil, hls,
      show decodeW "(global.get $heap_ptr)" = some .globalGetHeap from rfl,
      show decodeW "(global.set $heap_ptr)" = some .globalSetHeap from rfl,
      show decodeW "(i32.const 4)" = some (.constI 4) from rfl,
      show decodeW "(i32.mul)" = some .mulI from rfl,
      show decodeW "(i32.add)" = some .addI from rfl,
      decodeW_localSet, decodeW_const,
      wstep, bind, Option.bind, wn, wmul, wadd,
      show wrap32 4 = 4 from by decide]
    rfl
  · refine ⟨_, _, rfl, rfl, ?_⟩
    rfl

/-- Witness for C6: allocating size 3 into `v0` from heap pointer 5. -/
theorem C6_heap_bump_witness :
    ∃ code, transpile_instruction ["[", "v0", "3"] = .ok code ∧
      watEval code ⟨[], 5, []⟩ =
        some ⟨[], 5 + 3 * 4, sset [] ("v" ++ intRepr 0) 5⟩ :=
  C6_heap_bump.1 "v0" "3" 0 3 5 [] rfl rfl rfl rfl rfl rfl rfl rfl
    (by decide) (by decide) (by decide)

/-! ## Claim C1: dictionary lemmas -/

theorem dget_dset_self {α : Type} (d : List (Int × α)) (k : Int) (v : α) :
    dget (dset d k v) k = some v := by
  induction d with
  | nil => simp [dset, dget]
  | cons p d ih =>
    obtain ⟨k1, v1⟩ := p
    rw [dset]
    by_cases h : k1 = k
    · rw [if_pos h, dget, if_pos h]
    · rw [if_neg h, dget, if_neg h]
      exact ih

theorem dget_dset_ne {α : Type} (d : List (Int × α)) (k k2 : Int) (v : α)
    (h : ¬ k = k2) : dget (dset d k v) k2 = dget d k2 := by
  induction d with
  | nil => simp [dset, dget, h]
  | cons p d ih =>
    obtain ⟨k1, v1⟩ := p
    rw [dset]
    by_cases h1 : k1 = k
    · rw [if_pos h1, dget, dget]
      subst h1
      rw [if_neg h, if_neg h]
    · rw [if_neg h1, dget, dget]
      by_cases h2 : k1 = k2
      · rw [if_pos h2, if_pos h2]
      · rw [if_neg h2, if_neg h2]
        exact ih

theorem dget_isSome_iff_mem {α : Type} (d : List (Int × α)) (k : Int) :
    (dget d k).isSome = true ↔ k ∈ dkeys d := by
  induction d with
  | nil => simp [dget, dkeys]
  | cons p d ih =>
    obtain ⟨k1, v1⟩ := p
    rw [dget, dkeys]
    by_cases h : k1 = k
    · subst h
      simp
    · rw [if_neg h]
      simp only [List.map_cons, List.mem_cons]
      rw [ih]
      constructor
      · intro hm; right; exact hm
      · intro hm
        rcases hm with hm | hm
        · exact absurd hm.symm h
        · exact hm

theorem dkeys_dset_mem {α : Type} (d : List (Int × α)) (k : Int) (v : α) (x : Int) :
    x ∈ dkeys (dset d k v) ↔ x ∈ dkeys d ∨ x = k := by
  induction d with
  | nil => simp [dset, dkeys, eq_comm]
  | cons p d ih =>
    obtain ⟨k1, v1⟩ := p
    rw [dset]
    by_cases h : k1 = k
    · subst h
      rw [if_pos rfl]
      simp only [dkeys, List.map_cons, List.mem_cons]
      tauto
    · rw [if_neg h]
      simp only [dkeys, List.map_cons, List.mem_cons] at ih ⊢
      rw [ih]
      tauto

theorem dkeys_dset_nodup {α : Type} (d : List (Int × α)) (k : Int) (v : α)
    (h : (dkeys d).Nodup) : (dkeys (dset d k v)).Nodup := by
  induction d with
  | nil => simp [dset, dkeys]
  | cons p d ih =>
    obtain ⟨k1, v1⟩ := p
    rw [dset]
    by_cases h1 : k1 = k
    · rw [if_pos h1]
      exact h
    · rw [if_neg h1]
      simp only [dkeys, List.map_cons, List.nodup_cons] at h ⊢
      refine ⟨?_, ih h.2⟩
      intro hm
      rcases (dkeys_dset_mem d k v k1).mp hm with hm | hm
      · exact h.1 hm
      · exact h1 hm

/-! ## Claim C1: label collection and state numbering -/

theorem insertUniq_mem (xs : List Int) (v x : Int) :
    x ∈ insertUniq xs v ↔ x ∈ xs ∨ x = v := by
  by_cases hv : v ∈ xs
  · rw [insertUniq, if_pos hv]
    constructor
    · intro h; left; exact h
    · intro h
      rcases h with h | h
      · exact h
      · exact h ▸ hv
  · rw [insertUniq, if_neg hv]
    simp

theorem insertUniq_nodup (xs : List Int) (v : Int) (h : xs.Nodup) :
    (insertUniq xs v).Nodup := by
  by_cases hv : v ∈ xs
  · rw [insertUniq, if_pos hv]; exact h
  · rw [insertUniq, if_neg hv]
    simp [List.nodup_append, h, hv]

theorem labelsLoop_nodup (ls : List (List String)) :
    ∀ (acc L : List Int), acc.Nodup → labelsLoop ls acc = .ok L → L.Nodup := by
  induction ls with
  | nil =>
    intro acc L hacc h
    rw [labelsLoop] at h
    cases h
    exact hacc
  | cons l ls ih =>
    intro acc L hacc h
    rw [labelsLoop] at h
    split at h
    · rcases htg : tget l 1 with e | t <;> rw [htg] at h
      · simp [bind, Except.bind] at h
      rcases hpi : pyIntE t with e | v <;> simp only [hpi, bind, Except.bind] at h
      · cases h
      · exact ih _ _ (insertUniq_nodup acc v hacc) h
    · exact ih _ _ hacc h

theorem labelsLoop_mem_source (ls : List (List String)) :
    ∀ (acc L : List Int), labelsLoop ls acc = .ok L → ∀ v ∈ L,
      v ∈ acc ∨ ∃ l ∈ ls, head0 l = ":" ∧
        ∃ t, tget l 1 = .ok t ∧ pyIntE t = .ok v := by
  induction ls with
  | nil =>
    intro acc L h v hv
    rw [labelsLoop] at h
    cases h
    left; exact hv
  | cons l ls ih =>
    intro acc L h v hv
    rw [labelsLoop] at h
    by_cases hg : (l ≠ [] ∧ head0 l = ":")
    · rw [if_pos (by simpa using hg)] at h
      rcases htg : tget l 1 with e | t <;> rw [htg] at h
      · simp [bind, Except.bind] at h
      rcases hpi : pyIntE t with e | w <;> simp only [hpi, bind, Except.bind] at h
      · cases h
      rcases ih _ _ h v hv with hm | ⟨l2, hl2, h2⟩
      · rcases (insertUniq_mem acc w v).mp hm with hm2 | hm2
        · left; exact hm2
        · right
          exact ⟨l, by simp, hg.2, t, htg, hm2 ▸ hpi⟩
      · right; exact ⟨l2, by simp [hl2], h2⟩
    · rw [if_neg (by simpa using hg)] at h
      rcases ih _ _ h v hv with hm | ⟨l2, hl2, h2⟩
      · left; exact hm
      · right; exact ⟨l2, by simp [hl2], h2⟩

theorem sortInts_sorted (L : List Int) : (sortInts L).Sorted (· ≤ ·) :=
  List.sorted_insertionSort _ L

theorem sortInts_perm (L : List Int) : List.Perm (sortInts L) L :=
  List.perm_insertionSort _ L

theorem sortInts_sorted_lt (L : List Int) (h : L.Nodup) :
    (sortInts L).Sorted (· < ·) := by
  have hnd : (sortInts L).Nodup := (sortInts_perm L).nodup_iff.mpr h
  have hle := sortInts_sorted L
  have := List.Pairwise.and hle hnd
  exact this.imp (fun hab => lt_of_le_of_ne hab.1 hab.2)

theorem dget_enumFrom_sorted (s : List Int) : ∀ (k : Nat), s.Sorted (· < ·) →
    ∀ l ∈ s, dget ((s.enumFrom k).map (fun p => (p.2, (p.1 : Int) + 1))) l =
      some ((k : Int) + (s.filter (fun x => x < l)).length + 1) := by
  induction s with
  | nil => intro k _ l hl; cases hl
  | cons a t ih =>
    intro k hs l hl
    have hst := List.sorted_cons.mp hs
    rw [List.enumFrom_cons, List.map_cons, dget]
    by_cases h : a = l
    · rw [if_pos h]
      have hfil : (a :: t).filter (fun x => x < l) = [] := by
        rw [List.filter_eq_nil_iff]
        intro x hx
        rcases List.mem_cons.mp hx with hx | hx
        · subst hx; subst h; simp
        · have := hst.1 x hx
          subst h
          simp
          omega
      rw [hfil]
      simp
    · rw [if_neg h]
      have hlt : l ∈ t := by
        rcases List.mem_cons.mp hl with h1 | h1
        · exact absurd h1.symm h
        · exact h1
      have hal : a < l := hst.1 l hlt
      rw [ih (k + 1) hst.2 l hlt]
      have hfil : (a :: t).filter (fun x => x < l) =
          a :: t.filter (fun x => x < l) := by
        rw [List.filter_cons]
        simp [hal]
      rw [hfil]
      simp
      ring

theorem stateMapOf_rank (L : List Int) (hnd : L.Nodup) (l : Int) (hl : l ∈ L) :
    dget (stateMapOf L) l =
      some (((L.filter (fun x => x < l)).length : Int) + 1) := by
  have hls : l ∈ sortInts L := (sortInts_perm L).mem_iff.mpr hl
  rw [stateMapOf, List.enum]
  rw [dget_enumFrom_sorted (sortInts L) 0 (sortInts_sorted_lt L hnd) l hls]
  have hperm := (sortInts_perm L).filter (fun x => decide (x < l))
  rw [hperm.length_eq]
  simp

theorem dget_enumFrom_bound (s : List Int) : ∀ (k : Nat) (x l : Int),
    dget ((s.enumFrom k).map (fun p => (p.2, (p.1 : Int) + 1))) l = some x →
    (k : Int) + 1 ≤ x ∧ x ≤ (k : Int) + s.length := by
  induction s with
  | nil => intro k x l h; cases h
  | cons a t ih =>
    intro k x l h
    rw [List.enumFrom_cons, List.map_cons, dget] at h
    by_cases ha : a = l
    · rw [if_pos ha] at h
      cases h
      simp
    · rw [if_neg ha] at h
      have := ih (k + 1) x l h
      simp at this ⊢
      omega

theorem sorted_count_lt (s : List Int) : ∀ (hs : s.Sorted (· < ·)) (i : Nat)
    (hi : i < s.length),
    (s.filter (fun x => x < s.get ⟨i, hi⟩)).length = i := by
  induction s with
  | nil => intro _ i hi; simp at hi
  | cons a t ih =>
    intro hs i hi
    have hst := List.sorted_cons.mp hs
    cases i with
    | zero =>
      simp only [List.get]
      rw [List.filter_eq_nil_iff.mpr]
      · rfl
      · intro x hx
        rcases List.mem_cons.mp hx with hx | hx
        · subst hx; simp
        · have := hst.1 x hx
          simp
          omega
    | succ j =>
      simp only [List.get]
      have hj : j < t.length := by simpa using hi
      have hb : t.get ⟨j, hj⟩ ∈ t := t.get_mem j hj
      have hab : a < t.get ⟨j, hj⟩ := hst.1 _ hb
      rw [List.filter_cons, if_pos (by simpa using hab)]
      rw [List.length_cons]
      rw [ih hst.2 j hj]

theorem stateMapOf_surj (L : List Int) (hnd : L.Nodup) (x : Int)
    (h1 : 1 ≤ x) (h2 : x ≤ L.length) :
    ∃ l ∈ L, dget (stateMapOf L) l = some x := by
  have hslen : (sortInts L).length = L.length := (sortInts_perm L).length_eq
  have hi : (x - 1).toNat < (sortInts L).length := by
    rw [hslen]; omega
  set l := (sortInts L).get ⟨(x - 1).toNat, hi⟩ with hldef
  have hls : l ∈ sortInts L := (sortInts L).get_mem _ hi
  have hlL : l ∈ L := (sortInts_perm L).mem_iff.mp hls
  refine ⟨l, hlL, ?_⟩
  rw [stateMapOf_rank L hnd l hlL]
  have hperm := (sortInts_perm L).filter (fun y => decide (y < l))
  have hcount := sorted_count_lt (sortInts L) (sortInts_sorted_lt L hnd)
    (x - 1).toNat hi
  rw [← hperm.length_eq, hcount]
  congr 1
  omega

theorem stateMapOf_bounds (L : List Int) (t v : Int)
    (h : dget (stateMapOf L) t = some v) : 1 ≤ v ∧ v ≤ L.length := by
  rw [stateMapOf, List.enum] at h
  have hb := dget_enumFrom_bound (sortInts L) 0 v t h
  have hlen := (sortInts_perm L).length_eq
  simp at hb
  omega

/-! ## Claim C1: the state-partitioning loop -/

theorem entryRegion_nil : entryRegion [] = [] := rfl

theorem entryRegion_nil_line (ls : List (List String)) :
    entryRegion ([] :: ls) = entryRegion ls := by
  simp [entryRegion, List.takeWhile_cons, head0, List.filter_cons]

theorem entryRegion_colon (l : List String) (ls : List (List String))
    (h : head0 l = ":") : entryRegion (l :: ls) = [] := by
  simp [entryRegion, List.takeWhile_cons, h]

theorem entryRegion_close (l : List String) (ls : List (List String))
    (h : head0 l = "\x7d") : entryRegion (l :: ls) = entryRegion ls := by
  have hne : ¬ head0 l = ":" := by rw [h]; decide
  simp [entryRegion, List.takeWhile_cons, hne, List.filter_cons, h]

theorem entryRegion_other (l : List String) (ls : List (List String))
    (h1 : ¬ l = []) (h2 : ¬ head0 l = ":") (h3 : ¬ head0 l = "\x7d") :
    entryRegion (l :: ls) = l :: entryRegion ls := by
  simp [entryRegion, List.takeWhile_cons, h1, h2, h3, List.filter_cons]

theorem buildStates_preserve_0 (sm : List (Int × Int))
    (hsm : ∀ t v, dget sm t = some v → 1 ≤ v) (ls : List (List String)) :
    ∀ (states : List (Int × List (List String))) (cur : Int)
      (st' : List (Int × List (List String))), 1 ≤ cur →
      buildStates sm ls states cur = .ok st' → dget st' 0 = dget states 0 := by
  induction ls with
  | nil =>
    intro states cur st' hcur h
    rw [buildStates] at h
    cases h
    rfl
  | cons l ls ih =>
    intro states cur st' hcur h
    rw [buildStates] at h
    by_cases h0 : l = []
    · rw [if_pos h0] at h
      exact ih states cur st' hcur h
    rw [if_neg h0] at h
    by_cases h1 : head0 l = ":"
    · rw [if_pos h1] at h
      rcases htg : tget l 1 with e | t <;> rw [htg] at h
      · simp [bind, Except.bind] at h
      rcases hpi : pyIntE t with e | v <;> simp only [hpi, bind, Except.bind] at h
      · cases h
      rcases hdg : dget sm v with _ | cur2 <;> rw [hdg] at h <;>
        simp only [] at h
      · cases h
      have hc2 : 1 ≤ cur2 := hsm v cur2 hdg
      by_cases hks : (dget states cur2).isSome = true
      · rw [if_pos hks] at h
        exact ih states cur2 st' hc2 h
      · rw [if_neg hks] at h
        rw [ih _ cur2 st' hc2 h]
        exact dget_dset_ne states cur2 0 [] (by omega)
    rw [if_neg h1] at h
    by_cases h2 : head0 l = "\x7d"
    · rw [if_pos h2] at h
      exact ih states cur st' hcur h
    rw [if_neg h2] at h
    rcases hdg : dget states cur with _ | xs <;> rw [hdg] at h
    · rw [ih _ cur st' hcur h]
      exact dget_dset_ne states cur 0 [l] (by omega)
    · rw [ih _ cur st' hcur h]
      exact dget_dset_ne states cur 0 (xs ++ [l]) (by omega)

theorem buildStates_entry (sm : List (Int × Int))
    (hsm : ∀ t v, dget sm t = some v → 1 ≤ v) (ls : List (List String)) :
    ∀ (states : List (Int × List (List String))) (acc : List (List String))
      (st' : List (Int × List (List String))),
      dget states 0 = some acc →
      buildStates sm ls states 0 = .ok st' →
      dget st' 0 = some (acc ++ entryRegion ls) := by
  induction ls with
  | nil =>
    intro states acc st' hacc h
    rw [buildStates] at h
    cases h
    rw [entryRegion_nil, List.append_nil]
    exact hacc
  | cons l ls ih =>
    intro states acc st' hacc h
    rw [buildStates] at h
    by_cases h0 : l = []
    · rw [if_pos h0] at h
      rw [ih states acc st' hacc h, h0, entryRegion_nil_line]
    rw [if_neg h0] at h
    by_cases h1 : head0 l = ":"
    · rw [if_pos h1] at h
      rcases htg : tget l 1 with e | t <;> rw [htg] at h
      · simp [bind, Except.bind] at h
      rcases hpi : pyIntE t with e | v <;> simp only [hpi, bind, Except.bind] at h
      · cases h
      rcases hdg : dget sm v with _ | cur2 <;> rw [hdg] at h <;>
        simp only [] at h
      · cases h
      have hc2 : 1 ≤ cur2 := hsm v cur2 hdg
      rw [entryRegion_colon l ls h1, List.append_nil]
      by_cases hks : (dget states cur2).isSome = true
      · rw [if_pos hks] at h
        rw [buildStates_preserve_0 sm hsm ls states cur2 st' hc2 h]
        exact hacc
      · rw [if_neg hks] at h
        rw [buildStates_preserve_0 sm hsm ls _ cur2 st' hc2 h]
        rw [dget_dset_ne states cur2 0 [] (by omega)]
        exact hacc
    rw [if_neg h1] at h
    by_cases h2 : head0 l = "\x7d"
    · rw [if_pos h2] at h
      rw [ih states acc st' hacc h, entryRegion_close l ls h2]
    rw [if_neg h2] at h
    rw [hacc] at h
    rw [entryRegion_other l ls h0 h1 h2]
    have hnew : dget (dset states 0 (acc ++ [l])) 0 = some (acc ++ [l]) :=
      dget_dset_self states 0 (acc ++ [l])
    rw [ih _ (acc ++ [l]) st' hnew h]
    rw [List.append_assoc]
    rfl

/-! ## Claim C1: the state dictionary's key set -/

theorem buildStates_keys_nodup (sm : List (Int × Int)) (ls : List (List String)) :
    ∀ (states : List (Int × List (List String))) (cur : Int) st',
      (dkeys states).Nodup → buildStates sm ls states cur = .ok st' →
      (dkeys st').Nodup := by
  induction ls with
  | nil =>
    intro states cur st' hnd h
    rw [buildStates] at h
    cases h
    exact hnd
  | cons l ls ih =>
    intro states cur st' hnd h
    rw [buildStates] at h
    by_cases h0 : l = []
    · rw [if_pos h0] at h
      exact ih states cur st' hnd h
    rw [if_neg h0] at h
    by_cases h1 : head0 l = ":"
    · rw [if_pos h1] at h
      rcases htg : tget l 1 with e | t <;> rw [htg] at h
      · simp [bind, Except.bind] at h
      rcases hpi : pyIntE t with e | v <;> simp only [hpi, bind, Except.bind] at h
      · cases h
      rcases hdg : dget sm v with _ | cur2 <;> rw [hdg] at h <;>
        simp only [] at h
      · cases h
      by_cases hks : (dget states cur2).isSome = true
      · rw [if_pos hks] at h
        exact ih states cur2 st' hnd h
      · rw [if_neg hks] at h
        exact ih _ cur2 st' (dkeys_dset_nodup states cur2 [] hnd) h
    rw [if_neg h1] at h
    by_cases h2 : head0 l = "\x7d"
    · rw [if_pos h2] at h
      exact ih states cur st' hnd h
    rw [if_neg h2] at h
    rcases hdg : dget states cur with _ | xs <;> rw [hdg] at h
    · exact ih _ cur st' (dkeys_dset_nodup states cur [l] hnd) h
    · exact ih _ cur st' (dkeys_dset_nodup states cur (xs ++ [l]) hnd) h

theorem buildStates_keys_mono (sm : List (Int × Int)) (ls : List (List String)) :
    ∀ (states : List (Int × List (List String))) (cur : Int) st',
      buildStates sm ls states cur = .ok st' →
      ∀ x ∈ dkeys states, x ∈ dkeys st' := by
  induction ls with
  | nil =>
    intro states cur st' h x hx
    rw [buildStates] at h
    cases h
    exact hx
  | cons l ls ih =>
    intro states cur st' h x hx
    rw [buildStates] at h
    by_cases h0 : l = []
    · rw [if_pos h0] at h
      exact ih states cur st' h x hx
    rw [if_neg h0] at h
    by_cases h1 : head0 l = ":"
    · rw [if_pos h1] at h
      rcases htg : tget l 1 with e | t <;> rw [htg] at h
      · simp [bind, Except.bind] at h
      rcases hpi : pyIntE t with e | v <;> simp only [hpi, bind, Except.bind] at h
      · cases h
      rcases hdg : dget sm v with _ | cur2 <;> rw [hdg] at h <;>
        simp only [] at h
      · cases h
      by_cases hks : (dget states cur2).isSome = true
      · rw [if_pos hks] at h
        exact ih states cur2 st' h x hx
      · rw [if_neg hks] at h
        exact ih _ cur2 st' h x ((dkeys_dset_mem states cur2 [] x).mpr (Or.inl hx))
    rw [if_neg h1] at h
    by_cases h2 : head0 l = "\x7d"
    · rw [if_pos h2] at h
      exact ih states cur st' h x hx
    rw [if_neg h2] at h
    rcases hdg : dget states cur with _ | xs <;> rw [hdg] at h
    · exact ih _ cur st' h x ((dkeys_dset_mem states cur [l] x).mpr (Or.inl hx))
    · exact ih _ cur st' h x
        ((dkeys_dset_mem states cur (xs ++ [l]) x).mpr (Or.inl hx))

theorem buildStates_keys_sub (sm : List (Int × Int)) (ls : List (List String)) :
    ∀ (states : List (Int × List (List String))) (cur : Int) st',
      buildStates sm ls states cur = .ok st' →
      (cur ∈ dkeys states ∨ ∃ t, dget sm t = some cur) →
      ∀ x ∈ dkeys st', x ∈ dkeys states ∨ ∃ t, dget sm t = some x := by
  induction ls with
  | nil =>
    intro states cur st' h _ x hx
    rw [buildStates] at h
    cases h
    left; exact hx
  | cons l ls ih =>
    intro states cur st' h hinv x hx
    rw [buildStates] at h
    by_cases h0 : l = []
    · rw [if_pos h0] at h
      exact ih states cur st' h hinv x hx
    rw [if_neg h0] at h
    by_cases h1 : head0 l = ":"
    · rw [if_pos h1] at h
      rcases htg : tget l 1 with e | t <;> rw [htg] at h
      · simp [bind, Except.bind] at h
      rcases hpi : pyIntE t with e | v <;> simp only [hpi, bind, Except.bind] at h
      · cases h
      rcases hdg : dget sm v with _ | cur2 <;> rw [hdg] at h <;>
        simp only [] at h
      · cases h
      by_cases hks : (dget states cur2).isSome = true
      · rw [if_pos hks] at h
        exact ih states cur2 st' h (Or.inr ⟨v, hdg⟩) x hx
      · rw [if_neg hks] at h
        rcases ih _ cur2 st' h (Or.inr ⟨v, hdg⟩) x hx with hm | hm
        · rcases (dkeys_dset_mem states cur2 [] x).mp hm with hm2 | hm2
          · left; exact hm2
          · right; exact ⟨v, hm2 ▸ hdg⟩
        · right; exact hm
    rw [if_neg h1] at h
    by_cases h2 : head0 l = "\x7d"
    · rw [if_pos h2] at h
      exact ih states cur st' h hinv x hx
    rw [if_neg h2] at h
    have hstep : ∀ (xs : List (List String)),
        buildStates sm ls (dset states cur xs) cur = .ok st' →
        x ∈ dkeys states ∨ ∃ t, dget sm t = some x := by
      intro xs hrec
      have hcurmem : cur ∈ dkeys (dset states cur xs) :=
        (dkeys_dset_mem states cur xs cur).mpr (Or.inr rfl)
      rcases ih _ cur st' hrec (Or.inl hcurmem) x hx with hm | hm
      · rcases (dkeys_dset_mem states cur xs x).mp hm with hm2 | hm2
        · left; exact hm2
        · subst hm2
          exact hinv
      · right; exact hm
    rcases hdg : dget states cur with _ | xs <;> rw [hdg] at h
    · exact hstep [l] h
    · exact hstep (xs ++ [l]) h

theorem buildStates_label_keys (sm : List (Int × Int)) (ls : List (List String)) :
    ∀ (states : List (Int × List (List String))) (cur : Int) st',
      buildStates sm ls states cur = .ok st' →
      ∀ l ∈ ls, head0 l = ":" →
      ∀ t v x, tget l 1 = .ok t → pyIntE t = .ok v → dget sm v = some x →
      x ∈ dkeys st' := by
  induction ls with
  | nil => intro states cur st' _ l hl; cases hl
  | cons m ls ih =>
    intro states cur st' h l hl hcolon t v x htg hpi hdg
    rw [buildStates] at h
    rcases List.mem_cons.mp hl with heq | hmem
    · subst heq
      rw [if_neg (by intro he; rw [he] at hcolon; exact absurd hcolon (by decide)),
        if_pos hcolon, htg] at h
      simp only [bind, Except.bind] at h
      rw [hpi] at h
      simp only [] at h
      rw [hdg] at h
      simp only [] at h
      by_cases hks : (dget states x).isSome = true
      · rw [if_pos hks] at h
        exact buildStates_keys_mono sm ls states x st' h x
          ((dget_isSome_iff_mem states x).mp hks)
      · rw [if_neg hks] at h
        exact buildStates_keys_mono sm ls _ x st' h x
          ((dkeys_dset_mem states x [] x).mpr (Or.inr rfl))
    · by_cases h0 : m = []
      · rw [if_pos h0] at h
        exact ih states cur st' h l hmem hcolon t v x htg hpi hdg
      rw [if_neg h0] at h
      by_cases h1 : head0 m = ":"
      · rw [if_pos h1] at h
        rcases htg2 : tget m 1 with e | t2 <;> rw [htg2] at h
        · simp [bind, Except.bind] at h
        rcases hpi2 : pyIntE t2 with e | v2 <;>
          simp only [hpi2, bind, Except.bind] at h
        · cases h
        rcases hdg2 : dget sm v2 with _ | cur2 <;> rw [hdg2] at h <;>
          simp only [] at h
        · cases h
        by_cases hks : (dget states cur2).isSome = true
        · rw [if_pos hks] at h
          exact ih states cur2 st' h l hmem hcolon t v x htg hpi hdg
        · rw [if_neg hks] at h
          exact ih _ cur2 st' h l hmem hcolon t v x htg hpi hdg
      rw [if_neg h1] at h
      by_cases h2 : head0 m = "\x7d"
      · rw [if_pos h2] at h
        exact ih states cur st' h l hmem hcolon t v x htg hpi hdg
      rw [if_neg h2] at h
      rcases hdg3 : dget states cur with _ | xs <;> rw [hdg3] at h
      · exact ih _ cur st' h l hmem hcolon t v x htg hpi hdg
      · exact ih _ cur st' h l hmem hcolon t v x htg hpi hdg

theorem sorted_lt_ext (a b : List Int) (ha : a.Sorted (· < ·))
    (hb : b.Sorted (· < ·)) (h : ∀ x, x ∈ a ↔ x ∈ b) : a = b := by
  have hna : a.Nodup := ha.imp (fun hlt => ne_of_lt hlt)
  have hnb : b.Nodup := hb.imp (fun hlt => ne_of_lt hlt)
  exact List.eq_of_perm_of_sorted ((List.perm_ext_iff_of_nodup hna hnb).mpr h) ha hb

theorem range_map_sorted_lt (n : Nat) :
    ((List.range n).map (fun m : Nat => (m : Int))).Sorted (· < ·) := by
  have h := List.pairwise_lt_range n
  refine h.map (fun m : Nat => (m : Int)) ?_
  intro a b hab
  simp only []
  exact_mod_cast hab

theorem buildStates_keys_range (lines : List (List String)) (L : List Int)
    (hL : labelsOf lines = .ok L)
    (states : List (Int × List (List String)))
    (hb : buildStates (stateMapOf L) lines [(0, [])] 0 = .ok states) :
    sortInts (dkeys states) = (List.range (L.length + 1)).map (fun m : Nat => (m : Int)) := by
  have hnodL : L.Nodup := labelsLoop_nodup lines [] L List.nodup_nil hL
  have hmem : ∀ x, x ∈ dkeys states ↔ (0 ≤ x ∧ x ≤ L.length) := by
    intro x
    constructor
    · intro hx
      rcases buildStates_keys_sub _ lines _ 0 states hb
        (Or.inl (by simp [dkeys])) x hx with hm | ⟨t, hm⟩
      · simp [dkeys] at hm
        omega
      · have := stateMapOf_bounds L t x hm
        omega
    · rintro ⟨hx0, hxN⟩
      by_cases hx : x = 0
      · subst hx
        exact buildStates_keys_mono _ lines _ 0 states hb 0 (by simp [dkeys])
      · have h1x : (1 : Int) ≤ x := by omega
        obtain ⟨l, hlL, hget⟩ := stateMapOf_surj L hnodL x h1x hxN
        rcases labelsLoop_mem_source lines [] L hL l hlL with hm | hm
        · cases hm
        · obtain ⟨line, hline, hcolon, t, htg, hpi⟩ := hm
          exact buildStates_label_keys _ lines _ 0 states hb line hline hcolon
            t l x htg hpi hget
  have hnodK : (dkeys states).Nodup :=
    buildStates_keys_nodup _ lines _ 0 states (by simp [dkeys]) hb
  apply sorted_lt_ext
  · exact sortInts_sorted_lt _ hnodK
  · exact range_map_sorted_lt _
  · intro x
    rw [(sortInts_perm _).mem_iff, hmem]
    simp only [List.mem_map, List.mem_range]
    constructor
    · rintro ⟨h0, hN⟩
      refine ⟨x.toNat, ?_, ?_⟩
      · omega
      · omega
    · rintro ⟨m, hm, he⟩
      subst he
      refine ⟨by omega, by omega⟩

/-! ## Claim C1: state ids announced in the emitted text -/

theorem dropPre_isSome_prefix : ∀ (pat cs r : List Char),
    dropPre pat cs = some r → cs = pat ++ r := by
  intro pat
  induction pat with
  | nil =>
    intro cs r h
    rw [dropPre] at h
    cases h
    rfl
  | cons p ps ih =>
    intro cs r h
    cases cs with
    | nil => cases h
    | cons c cs' =>
      rw [dropPre_cons] at h
      by_cases hc : c = p
      · rw [if_pos hc] at h
        rw [List.cons_append, hc, ih cs' r h]
      · rw [if_neg hc] at h
        cases h

theorem extractStateId_none_of_fifth (s : String)
    (h : ¬ s.data.get? 4 = some ';') : extractStateId s = none := by
  rcases he : extractStateId s with _ | v
  · rfl
  · exfalso
    apply h
    rw [extractStateId] at he
    rcases hd : dropPre "    ;; State ".data s.data with _ | mid
    · rw [hd] at he; cases he
    · have hpre := dropPre_isSome_prefix _ _ _ hd
      rw [hpre, List.get?_append (by decide)]
      rfl

theorem extractStateId_header (sid : Int) :
    extractStateId ("    ;; State " ++ intRepr sid) = some sid := by
  rw [extractStateId, String.data_append, dropPre_append]
  simp [pyIntChars_intRepr]

theorem get4_append (p s : String) (h5 : 5 ≤ p.data.length) :
    (p ++ s).data.get? 4 = p.data.get? 4 := by
  rw [String.data_append, List.get?_append (by omega)]

theorem extractStateId_sp8 (x : String) :
    extractStateId ("        " ++ x) = none := by
  apply extractStateId_none_of_fifth
  rw [get4_append _ _ (by decide)]
  decide

theorem extractStateId_stateIf (sid : Int) :
    extractStateId ("    (if (i32.eq (local.get $_state) (i32.const " ++
      intRepr sid ++ "))") = none := by
  apply extractStateId_none_of_fifth
  rw [show ("    (if (i32.eq (local.get $_state) (i32.const " ++ intRepr sid ++ "))") =
    ("    (if (i32.eq (local.get $_state) (i32.const " ++ (intRepr sid ++ "))")) from
    String.append_assoc _ _ _]
  rw [get4_append _ _ (by decide)]
  decide

theorem sp8_concat3 (p y q : String) (hp : ∃ p2, p = "        " ++ p2) :
    ∃ x, p ++ y ++ q = "        " ++ x := by
  obtain ⟨p2, hp2⟩ := hp
  refine ⟨p2 ++ y ++ q, ?_⟩
  rw [hp2]
  apply String.ext
  simp [String.data_append]

theorem emitStateInstr_sp8 (sm : List (Int × Int)) (l : List String)
    (cs : List String) (j : Bool) (h : emitStateInstr sm l = .ok (cs, j)) :
    ∀ c ∈ cs, ∃ x, c = "        " ++ x := by
  rw [emitStateInstr] at h
  by_cases h1 : head0 l = "?"
  · rw [if_pos h1] at h
    rcases ht : tget l 1 with e | t
    · rw [ht] at h; simp [bind, Except.bind] at h
    rw [ht] at h; simp only [bind, Except.bind] at h
    rcases hr : resolve_value t with e | cond
    · rw [hr] at h; simp at h
    rw [hr] at h; simp only [] at h
    rcases ht2 : tget l 2 with e | t2
    · rw [ht2] at h; simp at h
    rw [ht2] at h; simp only [] at h
    rcases hp : pyIntE t2 with e | v
    · rw [hp] at h; simp at h
    rw [hp] at h; simp only [] at h
    cases h
    intro c hc
    simp only [List.mem_cons, List.not_mem_nil, or_false] at hc
    rcases hc with rfl | rfl | rfl | rfl | rfl | rfl | rfl
    · exact ⟨cond, rfl⟩
    · exact ⟨"(if", by decide⟩
    · exact ⟨"  (then", by decide⟩
    · exact sp8_concat3 "            (local.set $_state (i32.const "
        (intRepr ((dget sm v).getD 0)) "))" ⟨"    (local.set $_state (i32.const ", by decide⟩
    · exact ⟨"    (br $loop)", by decide⟩
    · exact ⟨"  )", by decide⟩
    · exact ⟨")", by decide⟩
  · rw [if_neg h1] at h
    by_cases h2 : head0 l = "@"
    · rw [if_pos h2] at h
      rcases ht : tget l 1 with e | t
      · rw [ht] at h; simp [bind, Except.bind] at h
      rw [ht] at h; simp only [bind, Except.bind] at h
      rcases hp : pyIntE t with e | v
      · rw [hp] at h; simp at h
      rw [hp] at h; simp only [] at h
      cases h
      intro c hc
      simp only [List.mem_cons, List.not_mem_nil, or_false] at hc
      rcases hc with rfl | rfl
      · exact sp8_concat3 "        (local.set $_state (i32.const "
          (intRepr ((dget sm v).getD 0)) "))" ⟨"(local.set $_state (i32.const ", by decide⟩
      · exact ⟨"(br $loop)", by decide⟩
    · rw [if_neg h2] at h
      by_cases h3 : head0 l = "^"
      · rw [if_pos h3] at h
        rcases ht : tget l 1 with e | t
        · rw [ht] at h; simp [bind, Except.bind] at h
        rw [ht] at h; simp only [bind, Except.bind] at h
        rcases hr : resolve_value t with e | v
        · rw [hr] at h; simp at h
        rw [hr] at h; simp only [] at h
        cases h
        intro c hc
        simp only [List.mem_cons, List.not_mem_nil, or_false] at hc
        rcases hc with rfl | rfl
        · exact ⟨v, rfl⟩
        · exact ⟨"(return)", by decide⟩
      · rw [if_neg h3] at h
        by_cases h4 : head0 l = "$"
        · rw [if_pos h4] at h
          rcases ht : tget l 1 with e | rv
          · rw [ht] at h; simp [bind, Except.bind] at h
          rw [ht] at h; simp only [bind, Except.bind] at h
          rcases ht2 : tget l 2 with e | fid
          · rw [ht2] at h; simp at h
          rw [ht2] at h; simp only [] at h
          rcases hm : (l.drop 3).mapM resolve_value with e | acodes
          · rw [hm] at h; simp at h
          rw [hm] at h; simp only [] at h
          rcases hs2 : set_var rv with e | sv
          · rw [hs2] at h; simp at h
          rw [hs2] at h; simp only [] at h
          cases h
          intro c hc
          rcases List.mem_append.mp hc with hc2 | hc2
          · obtain ⟨a, _, rfl⟩ := List.mem_map.mp hc2
            exact ⟨a, rfl⟩
          · simp only [List.mem_cons, List.not_mem_nil, or_false] at hc2
            rcases hc2 with rfl | rfl
            · exact sp8_concat3 "        (call $f" fid ")"
                ⟨"(call $f", by decide⟩
            · exact ⟨sv, rfl⟩
        · rw [if_neg h4] at h
          rcases hti : transpile_instruction l with e | insts
          · rw [hti] at h; simp [Except.map] at h
          rw [hti] at h; simp only [Except.map] at h
          cases h
          intro c hc
          obtain ⟨a, _, rfl⟩ := List.mem_map.mp hc
          exact ⟨a, rfl⟩

theorem emitStateLoop_sp8 (sm : List (Int × Int)) (ls : List (List String)) :
    ∀ (acc out : List String × Bool),
      emitStateLoop sm ls acc = .ok out →
      ∀ c ∈ out.1, c ∈ acc.1 ∨ ∃ x, c = "        " ++ x := by
  induction ls with
  | nil =>
    intro acc out h c hc
    rw [emitStateLoop] at h
    cases h
    left; exact hc
  | cons l ls ih =>
    intro acc out h c hc
    rw [emitStateLoop] at h
    rcases he : emitStateInstr sm l with e | p
    · rw [he] at h; simp [bind, Except.bind] at h
    rw [he] at h
    simp only [bind, Except.bind] at h
    obtain ⟨cs, j⟩ := p
    rcases ih _ out h c hc with hm | hm
    · rcases List.mem_append.mp hm with hm2 | hm2
      · left; exact hm2
      · right; exact emitStateInstr_sp8 sm l cs j he c hm2
    · right; exact hm

theorem fallLines_sp8 (states : List (Int × List (List String))) (sid : Int) :
    ∀ c ∈ fallLines states sid, ∃ x, c = "        " ++ x := by
  intro c hc
  rw [fallLines] at hc
  split at hc
  · simp only [List.mem_cons, List.not_mem_nil, or_false] at hc
    rcases hc with rfl | rfl
    · exact sp8_concat3 "        (local.set $_state (i32.const "
        (intRepr (sid + 1)) "))" ⟨"(local.set $_state (i32.const ", by decide⟩
    · exact ⟨"(br $loop)", by decide⟩
  · simp only [List.mem_cons, List.not_mem_nil, or_false] at hc
    subst hc
    exact ⟨"(br $exit)", by decide⟩

theorem stateSegment_ids (sm : List (Int × Int))
    (states : List (Int × List (List String))) (sid : Int)
    (stateLines : List (List String)) (seg : List String)
    (h : stateSegment sm states sid stateLines = .ok seg) :
    seg.filterMap extractStateId = [sid] := by
  rw [stateSegment] at h
  rcases hb : emitStateBody sm stateLines with e | p
  · rw [hb] at h; simp [bind, Except.bind] at h
  rw [hb] at h
  simp only [bind, Except.bind] at h
  obtain ⟨body, hj⟩ := p
  cases h
  have hbody : ∀ c ∈ body, extractStateId c = none := by
    intro c hc
    rcases emitStateLoop_sp8 sm stateLines ([], false) (body, hj) hb c hc with hm | hm
    · cases hm
    · obtain ⟨x, rfl⟩ := hm
      exact extractStateId_sp8 x
  have hfall : ∀ c ∈ (if hj then [] else fallLines states sid),
      extractStateId c = none := by
    intro c hc
    split at hc
    · cases hc
    · obtain ⟨x, rfl⟩ := fallLines_sp8 states sid c hc
      exact extractStateId_sp8 x
  simp only [List.cons_append, List.nil_append, List.filterMap_cons,
    extractStateId_header, extractStateId_stateIf,
    show extractStateId "      (then" = none from rfl, List.filterMap_append]
  rw [List.filterMap_eq_nil.mpr hbody, List.filterMap_eq_nil.mpr hfall]
  rfl

theorem mapM_forall_ok (f : Int → Except String (List String)) :
    ∀ (ks : List Int) (segs : List (List String)), ks.mapM f = .ok segs →
      List.Forall₂ (fun k seg => f k = .ok seg) ks segs := by
  intro ks
  induction ks with
  | nil =>
    intro segs h
    rw [List.mapM_nil] at h
    cases h
    exact List.Forall₂.nil
  | cons k ks ih =>
    intro segs h
    rw [List.mapM_cons] at h
    rcases hk : f k with e | seg
    · rw [hk] at h; simp [bind, Except.bind] at h
    rw [hk] at h
    simp only [bind, Except.bind] at h
    rcases hrest : ks.mapM f with e | rest
    · rw [hrest] at h; simp [pure, Except.pure] at h
    rw [hrest] at h
    simp only [pure, Except.pure] at h
    cases h
    exact List.Forall₂.cons hk (ih rest hrest)

theorem flatten_state_ids :
    ∀ (ks : List Int) (segs : List (List String)),
      List.Forall₂ (fun k seg => seg.filterMap extractStateId = [k]) ks segs →
      segs.flatten.filterMap extractStateId = ks := by
  intro ks segs hf
  induction hf with
  | nil => rfl
  | cons h _ ih =>
    rw [List.flatten_cons, List.filterMap_append, h, ih]
    rfl

/-- Claim C1 (confirmed): for a body with at least one label, (1) the state
map numbers the distinct labels 1, 2, 3, … in ascending label-value order
(each label's id is one plus the number of smaller labels); (2) the
partition assigns the instructions preceding the first label marker to
state 0 (empties and structural `}` lines dropped), and the state
dictionary's keys are exactly 0..N; (3) the emitted dispatch loop announces
its states in ascending id order 0, 1, …, N. -/
theorem C1_state_numbering (lines : List (List String)) (L : List Int)
    (hL : labelsOf lines = .ok L) (hne : L ≠ []) :
    (∀ l ∈ L, dget (stateMapOf L) l =
      some (((L.filter (fun x => x < l)).length : Int) + 1)) ∧
    (∀ states, buildStates (stateMapOf L) lines [(0, [])] 0 = .ok states →
      dget states 0 = some (entryRegion lines) ∧
      sortInts (dkeys states) =
        (List.range (L.length + 1)).map (fun m : Nat => (m : Int))) ∧
    (∀ out, transpile_block lines = .ok out →
      emittedStateIds out =
        (List.range (L.length + 1)).map (fun m : Nat => (m : Int))) := by
  have hnod : L.Nodup := labelsLoop_nodup lines [] L List.nodup_nil hL
  refine ⟨?_, ?_, ?_⟩
  · intro l hl
    exact stateMapOf_rank L hnod l hl
  · intro states hb
    constructor
    · have hent := buildStates_entry (stateMapOf L)
        (fun t v hv => (stateMapOf_bounds L t v hv).1) lines [(0, [])] [] states
        rfl hb
      simpa using hent
    · exact buildStates_keys_range lines L hL states hb
  · intro out hout
    rw [transpile_block, hL] at hout
    simp only [bind, Except.bind] at hout
    rw [if_pos hne] at hout
    rcases hbs : buildStates (stateMapOf L) lines [(0, [])] 0 with e | states
    · rw [hbs] at hout; cases hout
    rw [hbs] at hout
    simp only [] at hout
    rcases hsegs : (sortInts (dkeys states)).mapM
        (fun k => stateSegment (stateMapOf L) states k ((dget states k).getD []))
        with e | segs
    · rw [hsegs] at hout; cases hout
    rw [hsegs] at hout
    simp only [] at hout
    cases hout
    have hkeys := buildStates_keys_range lines L hL states hbs
    have hforall := mapM_forall_ok _ _ _ hsegs
    have hforall2 : List.Forall₂
        (fun k seg => seg.filterMap extractStateId = [k])
        (sortInts (dkeys states)) segs :=
      hforall.imp (fun _ _ hk => stateSegment_ids _ _ _ _ _ hk)
    have hflat := flatten_state_ids _ _ hforall2
    rw [emittedStateIds]
    simp only [List.cons_append, List.nil_append, List.filterMap_cons,
      show extractStateId "(local $_state i32)" = none from rfl,
      show extractStateId "(local.set $_state (i32.const 0))" = none from rfl,
      show extractStateId "(block $exit" = none from rfl,
      show extractStateId "  (loop $loop" = none from rfl,
      List.filterMap_append, hflat,
      show extractStateId "    (br $exit)" = none from rfl,
      show extractStateId "  )" = none from rfl,
      show extractStateId ")" = none from rfl]
    rw [hkeys]
    simp

/-- Witness for C1: the spec's example label set `{5, 2, 9}` (in the body
`= v0 1; : 5; @ 2; : 2; ^ 0; : 9; ^ 1`) maps `2→1, 5→2, 9→3`, and the
compiled block announces states 0, 1, 2, 3 in that order. -/
theorem C1_state_numbering_witness :
    dget (stateMapOf [5, 2, 9]) 2 = some 1 ∧
    dget (stateMapOf [5, 2, 9]) 5 = some 2 ∧
    dget (stateMapOf [5, 2, 9]) 9 = some 3 ∧
    emittedStateIds
      ["(local $_state i32)",
       "(local.set $_state (i32.const 0))",
       "(block $exit",
       "  (loop $loop",
       "    ;; State 0",
       "    (if (i32.eq (local.get $_state) (i32.const 0))",
       "      (then",
       "        (i32.const 1)",
       "        (local.set $v0)",
       "        (local.set $_state (i32.const 1))",
       "        (br $loop)",
       "      )",
       "    )",
       "    ;; State 1",
       "    (if (i32.eq (local.get $_state) (i32.const 1))",
       "      (then",
       "        (i32.const 0)",
       "        (return)",
       "      )",
       "    )",
       "    ;; State 2",
       "    (if (i32.eq (local.get $_state) (i32.const 2))",
       "      (then",
       "        (local.set $_state (i32.const 1))",
       "        (br $loop)",
       "      )",
       "    )",
       "    ;; State 3",
       "    (if (i32.eq (local.get $_state) (i32.const 3))",
       "      (then",
       "        (i32.const 1)",
       "        (return)",
       "      )",
       "    )",
       "    (br $exit)",
       "  )",
       ")"] = [0, 1, 2, 3] := by
  have h := C1_state_numbering
    [["=", "v0", "1"], [":", "5"], ["@", "2"], [":", "2"], ["^", "0"],
     [":", "9"], ["^", "1"]] [5, 2, 9] rfl (by decide)
  refine ⟨?_, ?_, ?_, ?_⟩
  · rw [h.1 2 (by decide)]; decide
  · rw [h.1 5 (by decide)]; decide
  · rw [h.1 9 (by decide)]; decide
  · rw [h.2.2
      ["(local $_state i32)", "(local.set $_state (i32.const 0))", "(block $exit", "  (loop $loop",
       "    ;; State 0", "    (if (i32.eq (local.get $_state) (i32.const 0))", "      (then", "        (i32.const 1)",
       "        (local.set $v0)", "        (local.set $_state (i32.const 1))", "        (br $loop)", "      )", "    )",
       "    ;; State 1", "    (if (i32.eq (local.get $_state) (i32.const 1))", "      (then", "        (i32.const 0)",
       "        (return)", "      )", "    )", "    ;; State 2", "    (if (i32.eq (local.get $_state) (i32.const 2))",
       "      (then", "        (local.set $_state (i32.const 1))", "        (br $loop)", "      )", "    )", "    ;; State 3",
       "    (if (i32.eq (local.get $_state) (i32.const 3))", "      (then", "        (i32.const 1)", "        (return)",
       "      )", "    )", "    (br $exit)", "  )", ")"] rfl]
    decide

theorem append_ne (p s t : String)
    (h : ¬ t.data.take p.data.length = p.data) : ¬ p ++ s = t := by
  intro he
  apply h
  rw [← he, String.data_append, List.take_left]

theorem collect_info_flag (ls : List (List String)) :
    ∀ info : Info, (collect_info info ls).useMemory =
      (info.useMemory || arrayOpPresent ls) := by
  induction ls with
  | nil =>
    intro info
    simp [collect_info, arrayOpPresent]
  | cons l ls ih =>
    intro info
    have h1 : collect_info info (l :: ls) =
        collect_info (collectInfoLine info l) ls := rfl
    have h2 : arrayOpPresent (l :: ls) =
        ((head0 l = "[" || head0 l = "]" || head0 l = "\x7b") ||
          arrayOpPresent ls) := rfl
    rw [h1, ih, h2]
    cases l with
    | nil =>
      rw [show (collectInfoLine info []).useMemory = info.useMemory from rfl,
        show ((head0 ([] : List String) = "[" || head0 ([] : List String) = "]" ||
          head0 ([] : List String) = "\x7b")) = false from rfl, Bool.false_or]
    | cons op rest =>
      rw [show (collectInfoLine info (op :: rest)).useMemory =
          (info.useMemory || (op = "[" || op = "]" || op = "\x7b")) from rfl,
        show head0 (op :: rest) = op from rfl, Bool.or_assoc]

theorem splitFuncBody_sub :
    ∀ (ls : List (List String)) (d : Nat),
      (∀ l ∈ (splitFuncBody ls d).1, l ∈ ls) ∧
      (∀ l ∈ (splitFuncBody ls d).2, l ∈ ls) := by
  intro ls
  induction ls with
  | nil =>
    intro d
    exact ⟨fun l hl => absurd hl (by simp [splitFuncBody]),
           fun l hl => absurd hl (by simp [splitFuncBody])⟩
  | cons a as ih =>
    intro d
    have step : ∀ (p : List (List String) × List (List String)),
        (∀ l ∈ p.1, l ∈ as) → (∀ l ∈ p.2, l ∈ as) →
        (∀ l ∈ (a :: p.1 : List (List String)), l ∈ a :: as) ∧
        (∀ l ∈ p.2, l ∈ a :: as) := by
      intro p hp1 hp2
      constructor
      · intro l hl
        rcases List.mem_cons.mp hl with h | h
        · exact h ▸ List.mem_cons_self a as
        · exact List.mem_cons_of_mem a (hp1 l h)
      · intro l hl
        exact List.mem_cons_of_mem a (hp2 l hl)
    by_cases h1 : head0 a = "#"
    · have he : splitFuncBody (a :: as) d =
          (a :: (splitFuncBody as (d + 1)).1, (splitFuncBody as (d + 1)).2) := by
        rw [splitFuncBody, if_pos h1]
      rw [he]
      exact step _ (ih (d + 1)).1 (ih (d + 1)).2
    · by_cases h2 : head0 a = "\x7d"
      · by_cases h3 : d = 1
        · have he : splitFuncBody (a :: as) d = ([], as) := by
            rw [splitFuncBody, if_neg h1, if_pos h2, if_pos h3]
          rw [he]
          exact ⟨fun l hl => absurd hl (by simp),
                 fun l hl => List.mem_cons_of_mem a hl⟩
        · have he : splitFuncBody (a :: as) d =
              (a :: (splitFuncBody as (d - 1)).1, (splitFuncBody as (d - 1)).2) := by
            rw [splitFuncBody, if_neg h1, if_pos h2, if_neg h3]
          rw [he]
          exact step _ (ih (d - 1)).1 (ih (d - 1)).2
      · have he : splitFuncBody (a :: as) d =
            (a :: (splitFuncBody as d).1, (splitFuncBody as d).2) := by
          rw [splitFuncBody, if_neg h1, if_neg h2]
        rw [he]
        exact step _ (ih d).1 (ih d).2

theorem arrayOpPresent_of_mem (ls ms : List (List String))
    (hsub : ∀ l ∈ ms, l ∈ ls) (h : arrayOpPresent ms = true) :
    arrayOpPresent ls = true := by
  rw [arrayOpPresent, List.any_eq_true] at h ⊢
  obtain ⟨l, hl, hp⟩ := h
  exact ⟨l, hsub l hl, hp⟩

theorem collectFnsF_flag :
    ∀ (fuel : Nat) (ls : List (List String))
      (fns : List (Int × (Int × List (List String)))) (info : Info)
      (fns' : List (Int × (Int × List (List String)))) (info' : Info),
      collectFnsF fuel ls fns info = .ok (fns', info') →
      ((info'.useMemory = true →
        info.useMemory = true ∨ arrayOpPresent ls = true) ∧
       (info.useMemory = true → info'.useMemory = true)) := by
  intro fuel
  induction fuel with
  | zero =>
    intro ls fns info fns' info' h
    cases ls with
    | nil =>
      rw [collectFnsF] at h
      cases h
      exact ⟨fun hm => Or.inl hm, fun hm => hm⟩
    | cons a as => rw [collectFnsF] at h; cases h
  | succ fuel ih =>
    intro ls fns info fns' info' h
    cases ls with
    | nil =>
      rw [collectFnsF] at h
      cases h
      exact ⟨fun hm => Or.inl hm, fun hm => hm⟩
    | cons a as =>
      rw [collectFnsF] at h
      by_cases h1 : head0 a = "#"
      · rw [if_pos h1] at h
        simp only [bind, Except.bind] at h
        rcases ht1 : tget a 1 with e | t1
        · rw [ht1] at h; cases h
        rw [ht1] at h
        simp only [] at h
        rcases hi1 : pyIntE t1 with e | fid
        · rw [hi1] at h; cases h
        rw [hi1] at h
        simp only [] at h
        rcases ht2 : tget a 2 with e | t2
        · rw [ht2] at h; cases h
        rw [ht2] at h
        simp only [] at h
        rcases hi2 : pyIntE t2 with e | argc
        · rw [hi2] at h; cases h
        rw [hi2] at h
        simp only [] at h
        have hih := ih _ _ _ _ _ h
        constructor
        · intro hm
          rcases hih.1 hm with hb | hb
          · rw [collect_info_flag] at hb
            simp only [Bool.or_eq_true] at hb
            rcases hb with hb | hb
            · exact Or.inl hb
            · exact Or.inr (arrayOpPresent_of_mem _ _
                (fun l hl => List.mem_cons_of_mem a
                  ((splitFuncBody_sub as 1).1 l hl)) hb)
          · exact Or.inr (arrayOpPresent_of_mem _ _
              (fun l hl => List.mem_cons_of_mem a
                ((splitFuncBody_sub as 1).2 l hl)) hb)
        · intro hm
          exact hih.2 (by rw [collect_info_flag, hm, Bool.true_or])
      · rw [if_neg h1] at h
        have hih := ih _ _ _ _ _ h
        constructor
        · intro hm
          rcases hih.1 hm with hb | hb
          · exact Or.inl hb
          · exact Or.inr (arrayOpPresent_of_mem _ _
              (fun l hl => List.mem_cons_of_mem a hl) hb)
        · exact hih.2

theorem mapM_forall_ok_gen {α β : Type} (f : α → Except String β) :
    ∀ (xs : List α) (ys : List β), xs.mapM f = .ok ys →
      List.Forall₂ (fun x y => f x = .ok y) xs ys := by
  intro xs
  induction xs with
  | nil =>
    intro ys h
    rw [List.mapM_nil] at h
    cases h
    exact List.Forall₂.nil
  | cons x xs ih =>
    intro ys h
    rw [List.mapM_cons] at h
    rcases hx : f x with e | y
    · rw [hx] at h; simp [bind, Except.bind] at h
    rw [hx] at h
    simp only [bind, Except.bind] at h
    rcases hrest : xs.mapM f with e | rest
    · rw [hrest] at h; simp [pure, Except.pure] at h
    rw [hrest] at h
    simp only [pure, Except.pure] at h
    cases h
    exact List.Forall₂.cons hx (ih rest hrest)

theorem forall2_mem_right {α β : Type} {R : α → β → Prop} :
    ∀ {xs : List α} {ys : List β}, List.Forall₂ R xs ys →
      ∀ y ∈ ys, ∃ x, R x y := by
  intro xs ys hf
  induction hf with
  | nil =>
    intro y hy
    exact absurd hy (by simp)
  | cons hR _ ih =>
    intro y hy
    rcases List.mem_cons.mp hy with h | h
    · exact ⟨_, h ▸ hR⟩
    · exact ih y h

theorem globalsSeg_excl (gs : List Int) (l : String) (hl : l ∈ globalsSeg gs) :
    ¬ l = "  (memory 1)" ∧
    ¬ l = "  (global $heap_ptr (mut i32) (i32.const 0))" := by
  rw [globalsSeg] at hl
  by_cases hgs : gs = []
  · rw [if_pos hgs] at hl
    exact absurd hl (by simp)
  rw [if_neg hgs] at hl
  rcases List.mem_append.mp hl with h | h
  · rcases List.mem_cons.mp h with h1 | h1
    · subst h1
      exact ⟨by decide, by decide⟩
    · obtain ⟨g, _, hg⟩ := List.mem_map.mp h1
      subst hg
      constructor
      · simp only [String.append_assoc]
        exact append_ne _ _ _ (by decide)
      · simp only [String.append_assoc]
        exact append_ne _ _ _ (by decide)
  · have h2 : l = "  " := by simpa using h
    subst h2
    exact ⟨by decide, by decide⟩

theorem transpile_function_line_excl (fid argc : Int) (body : List (List String))
    (seg : List String) (hok : transpile_function fid argc body = .ok seg)
    (bl : String) (hbl : bl ∈ seg) :
    ¬ "  " ++ bl = "  (memory 1)" ∧
    ¬ "  " ++ bl = "  (global $heap_ptr (mut i32) (i32.const 0))" := by
  rw [transpile_function] at hok
  simp only [bind, Except.bind] at hok
  rcases htb : transpile_block body with e | bc
  · rw [htb] at hok; cases hok
  rw [htb] at hok
  simp only [] at hok
  cases hok
  rcases List.mem_append.mp hbl with h | h
  · rcases List.mem_append.mp h with h2 | h2
    · rcases List.mem_cons.mp h2 with h3 | h3
      · subst h3
        constructor
        · simp only [String.append_assoc]
          rw [← String.append_assoc]
          exact append_ne _ _ _ (by decide)
        · simp only [String.append_assoc]
          rw [← String.append_assoc]
          exact append_ne _ _ _ (by decide)
      · obtain ⟨v, _, hv⟩ := List.mem_map.mp h3
        subst hv
        constructor
        · simp only [String.append_assoc]
          rw [← String.append_assoc]
          exact append_ne _ _ _ (by decide)
        · simp only [String.append_assoc]
          rw [← String.append_assoc]
          exact append_ne _ _ _ (by decide)
    · obtain ⟨cl, _, hcl⟩ := List.mem_map.mp h2
      subst hcl
      constructor
      · rw [← String.append_assoc]
        exact append_ne _ _ _ (by decide)
      · rw [← String.append_assoc]
        exact append_ne _ _ _ (by decide)
  · have h3 : bl = "  (i32.const 0)" ∨ bl = ")" := by simpa using h
    rcases h3 with h3 | h3 <;> subst h3
    · exact ⟨by decide, by decide⟩
    · exact ⟨by decide, by decide⟩

theorem funcsSeg_excl (segs : List (List String))
    (hsegs : ∀ seg ∈ segs, ∃ fid argc body,
      transpile_function fid argc body = .ok seg)
    (l : String) (hl : l ∈ funcsSeg segs) :
    ¬ l = "  (memory 1)" ∧
    ¬ l = "  (global $heap_ptr (mut i32) (i32.const 0))" := by
  rw [funcsSeg] at hl
  by_cases hse : segs = []
  · rw [if_pos hse] at hl
    exact absurd hl (by simp)
  rw [if_neg hse] at hl
  rcases List.mem_cons.mp hl with h | h
  · subst h
    exact ⟨by decide, by decide⟩
  obtain ⟨piece, hpiece, hlp⟩ := List.mem_flatten.mp h
  obtain ⟨seg, hseg, hps⟩ := List.mem_map.mp hpiece
  subst hps
  rcases List.mem_append.mp hlp with h2 | h2
  · obtain ⟨bl, hbl, hlb⟩ := List.mem_map.mp h2
    obtain ⟨fid, argc, body, hok⟩ := hsegs seg hseg
    subst hlb
    exact transpile_function_line_excl fid argc body seg hok bl hbl
  · have h3 : l = "  " := by simpa using h2
    subst h3
    exact ⟨by decide, by decide⟩

theorem mainSeg_excl (locals : List Int) (body : List String) (l : String)
    (hl : l ∈ mainSeg locals body) :
    ¬ l = "  (memory 1)" ∧
    ¬ l = "  (global $heap_ptr (mut i32) (i32.const 0))" := by
  rw [mainSeg] at hl
  rcases List.mem_append.mp hl with h | h
  · rcases List.mem_append.mp h with h2 | h2
    · rcases List.mem_append.mp h2 with h3 | h3
      · have h4 : l = "  ;; Main function" ∨
            l = "  (func $main (export \"main\") (result i32)" := by
          simpa using h3
        rcases h4 with h4 | h4 <;> subst h4
        · exact ⟨by decide, by decide⟩
        · exact ⟨by decide, by decide⟩
      · obtain ⟨v, _, hv⟩ := List.mem_map.mp h3
        subst hv
        constructor
        · simp only [String.append_assoc]
          exact append_ne _ _ _ (by decide)
        · simp only [String.append_assoc]
          exact append_ne _ _ _ (by decide)
    · obtain ⟨cl, _, hcl⟩ := List.mem_map.mp h2
      subst hcl
      exact ⟨append_ne _ _ _ (by decide), append_ne _ _ _ (by decide)⟩
  · have h4 : l = "    (i32.const 0)" ∨ l = "  )" ∨ l = ")" := by simpa using h
    rcases h4 with h4 | h4 | h4 <;> subst h4
    · exact ⟨by decide, by decide⟩
    · exact ⟨by decide, by decide⟩
    · exact ⟨by decide, by decide⟩

/-- Claim C2 (confirmed): the emitted module lines contain the one-page
memory declaration and the zero-initialized heap-pointer global if and only
if some line of the tokenized source (entry body or any function body) has
one of the three array operators as its opcode. -/
theorem C2_memory_gating (code : String) (out : List String)
    (h : transpile code = .ok out) :
    ("  (memory 1)" ∈ out ∧
     "  (global $heap_ptr (mut i32) (i32.const 0))" ∈ out) ↔
      arrayOpPresent (parsedLines code) = true := by
  rw [transpile] at h
  simp only [bind, Except.bind] at h
  rcases hcf : collectFns (parsedLines code)
      (collect_info ⟨false, []⟩ (parsedLines code)) with e | pr
  · rw [hcf] at h; cases h
  rw [hcf] at h
  simp only [] at h
  obtain ⟨fns, info⟩ := pr
  simp only [] at h
  rcases hsegs : (sortFns fns).mapM
      (fun p => transpile_function p.1 p.2.1 p.2.2) with e | segs
  · rw [hsegs] at h; cases h
  rw [hsegs] at h
  simp only [] at h
  rcases hmb : transpile_block (mainSplit (parsedLines code)).1 with e | mainBody
  · rw [hmb] at h; cases h
  rw [hmb] at h
  simp only [] at h
  cases h
  have hcf2 : collectFnsF ((parsedLines code).length + 1) (parsedLines code) []
      (collect_info ⟨false, []⟩ (parsedLines code)) = .ok (fns, info) := hcf
  have h0 : (collect_info ⟨false, []⟩ (parsedLines code)).useMemory =
      arrayOpPresent (parsedLines code) := by
    rw [collect_info_flag]
    rfl
  have hflag : info.useMemory = arrayOpPresent (parsedLines code) := by
    cases hap : arrayOpPresent (parsedLines code) with
    | false =>
      cases hm2 : info.useMemory with
      | false => rfl
      | true =>
        rcases (collectFnsF_flag _ _ _ _ _ _ hcf2).1 hm2 with hb | hb
        · rw [h0, hap] at hb
          exact Bool.noConfusion hb
        · rw [hap] at hb
          exact Bool.noConfusion hb
    | true =>
      exact (collectFnsF_flag _ _ _ _ _ _ hcf2).2 (by rw [h0, hap])
  constructor
  · rintro ⟨h1, _⟩
    rw [← hflag]
    cases hm : info.useMemory with
    | true => rfl
    | false =>
      exfalso
      rw [hm] at h1
      have hall : ∀ seg ∈ segs, ∃ fid argc body,
          transpile_function fid argc body = .ok seg := by
        intro seg hseg
        obtain ⟨p, hp⟩ :=
          forall2_mem_right (mapM_forall_ok_gen _ _ _ hsegs) seg hseg
        exact ⟨p.1, p.2.1, p.2.2, hp⟩
      rcases List.mem_append.mp h1 with hx | hmain
      · rcases List.mem_append.mp hx with hy | hfs
        · rcases List.mem_append.mp hy with hz | hgs
          · rcases List.mem_append.mp hz with hmh | hms
            · exact absurd hmh (by decide)
            · exact absurd hms (by decide)
          · exact (globalsSeg_excl _ _ hgs).1 rfl
        · exact (funcsSeg_excl segs hall _ hfs).1 rfl
      · exact (mainSeg_excl _ _ _ hmain).1 rfl
  · intro hap
    have hm : info.useMemory = true := by rw [hflag, hap]
    rw [hm]
    constructor
    · exact List.mem_append.mpr (Or.inl (List.mem_append.mpr (Or.inl
        (List.mem_append.mpr (Or.inl (List.mem_append.mpr
          (Or.inr (by decide))))))))
    · exact List.mem_append.mpr (Or.inl (List.mem_append.mpr (Or.inl
        (List.mem_append.mpr (Or.inl (List.mem_append.mpr
          (Or.inr (by decide))))))))

/-- Witness for C2: the one-line program `[ v0 2` uses the array-allocate
operator, and its compiled module indeed contains the memory declaration
and the heap-pointer global. -/
theorem C2_memory_gating_witness :
    ("  (memory 1)" ∈
      ["(module", "  ;; External function imports",
       "  (import \"env\" \"print_i32\" (func $print_i32 (param i32)))", "  ",
       "  ;; Linear memory for arrays", "  (memory 1)",
       "  (global $heap_ptr (mut i32) (i32.const 0))", "  ",
       "  ;; Main function", "  (func $main (export \"main\") (result i32)",
       "    (local $v0 i32)", "    (global.get $heap_ptr)",
       "    (local.set $v0)", "    (global.get $heap_ptr)", "    (i32.const 2)",
       "    (i32.const 4)", "    (i32.mul)", "    (i32.add)",
       "    (global.set $heap_ptr)", "    (i32.const 0)", "  )", ")"] ∧
     "  (global $heap_ptr (mut i32) (i32.const 0))" ∈
      ["(module", "  ;; External function imports",
       "  (import \"env\" \"print_i32\" (func $print_i32 (param i32)))", "  ",
       "  ;; Linear memory for arrays", "  (memory 1)",
       "  (global $heap_ptr (mut i32) (i32.const 0))", "  ",
       "  ;; Main function", "  (func $main (export \"main\") (result i32)",
       "    (local $v0 i32)", "    (global.get $heap_ptr)",
       "    (local.set $v0)", "    (global.get $heap_ptr)", "    (i32.const 2)",
       "    (i32.const 4)", "    (i32.mul)", "    (i32.add)",
       "    (global.set $heap_ptr)", "    (i32.const 0)", "  )", ")"]) ↔
      arrayOpPresent (parsedLines "[ v0 2") = true :=
  C2_memory_gating "[ v0 2"
    ["(module", "  ;; External function imports",
     "  (import \"env\" \"print_i32\" (func $print_i32 (param i32)))", "  ",
     "  ;; Linear memory for arrays", "  (memory 1)",
     "  (global $heap_ptr (mut i32) (i32.const 0))", "  ",
     "  ;; Main function", "  (func $main (export \"main\") (result i32)",
     "    (local $v0 i32)", "    (global.get $heap_ptr)",
     "    (local.set $v0)", "    (global.get $heap_ptr)", "    (i32.const 2)",
     "    (i32.const 4)", "    (i32.mul)", "    (i32.add)",
     "    (global.set $heap_ptr)", "    (i32.const 0)", "  )", ")"] rfl
